import Mathlib

/-!
Shallow embedding of the sync-task reconciliation pipeline of the smith
controller (pkg/controller/controller_sync_task.go) and proofs of the
specification claims about it.

External collaborators (object store, smart client, ready checker, spec
checker, reference processor, bundle client) are modelled as an `Env` of
response oracles; the functions under verification are translated from the Go
source line by line, additionally returning the trace of API actions they
perform so that claims about "no API call is made" are statable.
-/

set_option autoImplicit false

namespace Smith

/-- Group/version/kind identifying an API object type. -/
structure GroupVersionKind where
  group : String
  version : String
  kind : String
deriving DecidableEq, Repr

/-- apiVersion string of a GroupVersionKind, as in k8s (group/version, or bare
version for the core group). -/
def apiVersionOf (g : GroupVersionKind) : String :=
  if g.group = "" then g.version else g.group ++ "/" ++ g.version

/-- meta_v1.OwnerReference. -/
structure OwnerReference where
  apiVersion : String
  kind : String
  name : String
  uid : String
  controller : Option Bool
  blockOwnerDeletion : Option Bool
deriving DecidableEq, Repr

/-- An unstructured API object: the metadata fields the sync task reads plus an
opaque body standing for the rest of the payload. -/
structure Unstructured where
  gvk : GroupVersionKind
  name : String
  uid : String
  labels : List (String × String)
  ownerRefs : List OwnerReference
  deletionTs : Option Nat
  body : Nat
deriving DecidableEq, Repr

def defaultUnstructured : Unstructured :=
  { gvk := { group := "", version := "", kind := "" }
    name := ""
    uid := ""
    labels := []
    ownerRefs := []
    deletionTs := none
    body := 0 }

/-- One declared resource of a Bundle: smith_v1.Resource. The free-form Spec is
modelled as the Unstructured object it converts to (Resource.ToUnstructured). -/
structure Resource where
  name : String
  dependsOn : List String
  spec : Unstructured
deriving DecidableEq, Repr

def defaultResource : Resource :=
  { name := "", dependsOn := [], spec := defaultUnstructured }

/-- Condition types of a Bundle: smith_v1.BundleInProgress / BundleReady /
BundleError. -/
inductive ConditionType
  | bundleInProgress
  | bundleReady
  | bundleError
deriving DecidableEq, Repr

/-- smith_v1.ConditionStatus. -/
inductive ConditionStatus
  | conditionTrue
  | conditionFalse
  | conditionUnknown
deriving DecidableEq, Repr

/-- smith_v1.BundleCondition. -/
structure BundleCondition where
  condType : ConditionType
  status : ConditionStatus
  reason : String
  message : String
deriving DecidableEq, Repr

/-- The Bundle snapshot a sync task works on. -/
structure Bundle where
  ns : String
  name : String
  uid : String
  labels : List (String × String)
  resources : List Resource
  conditions : List BundleCondition
deriving DecidableEq, Repr

/-- Cause classification of an API error, as recognized by the
k8s.io/apimachinery api_errors.IsConflict / IsAlreadyExists / IsNotFound
predicates. -/
inductive ErrCause
  | conflictCause
  | alreadyExistsCause
  | notFoundCause
  | otherCause
deriving DecidableEq, Repr

/-- A Go error value as observed by the sync task: either one of the two
context sentinel errors (compared by identity in the source) or an error with
a cause and a message. Wrapping with errors.Wrapf keeps the cause (that is what
errors.Cause recovers) and extends the message. -/
inductive Err
  | ctxCanceled
  | ctxDeadlineExceeded
  | api (cause : ErrCause) (msg : String)
deriving DecidableEq, Repr

def Err.message : Err → String
  | .ctxCanceled => "context canceled"
  | .ctxDeadlineExceeded => "context deadline exceeded"
  | .api _ m => m

/-- api_errors.IsConflict on the cause of the error. -/
def Err.isConflictErr : Err → Bool
  | .api .conflictCause _ => true
  | _ => false

/-- api_errors.IsAlreadyExists. -/
def Err.isAlreadyExists : Err → Bool
  | .api .alreadyExistsCause _ => true
  | _ => false

/-- api_errors.IsNotFound. -/
def Err.isNotFound : Err → Bool
  | .api .notFoundCause _ => true
  | _ => false

/-- errors.Wrapf: new message, same cause (errors.Cause unwraps to the
original, and all cause-sensitive checks in the source go through
errors.Cause or inspect unwrapped client errors directly). -/
def wrapErr (m : String) : Err → Err
  | .api c em => .api c (m ++ ": " ++ em)
  | e => e

/-- api_errors.NewConflict as used in createResource. -/
def newConflict (gvk : GroupVersionKind) (name : String) (e : Err) : Err :=
  .api .conflictCause
    ("Operation cannot be fulfilled on " ++ gvk.group ++ "/" ++ gvk.kind ++
      " \x22" ++ name ++ "\x22: " ++ e.message)

/-- Association-list lookup, modelling Go map indexing. -/
def alookup {κ ν : Type} [DecidableEq κ] (k : κ) : List (κ × ν) → Option ν
  | [] => none
  | (k', v) :: rest => if k' = k then some v else alookup k rest

/-- Association-list insert-or-overwrite, modelling Go map assignment. -/
def ainsert {κ ν : Type} [DecidableEq κ] (k : κ) (v : ν) :
    List (κ × ν) → List (κ × ν)
  | [] => [(k, v)]
  | (k', v') :: rest =>
    if k' = k then (k, v) :: rest else (k', v') :: ainsert k v rest

/-- Association-list key removal, modelling Go map delete. -/
def aerase {κ ν : Type} [DecidableEq κ] (k : κ) :
    List (κ × ν) → List (κ × ν)
  | [] => []
  | (k', v') :: rest =>
    if k' = k then aerase k rest else (k', v') :: aerase k rest

/-- meta_v1.GetControllerOf: the first owner reference with Controller set to
true. -/
def getControllerOf (refs : List OwnerReference) : Option OwnerReference :=
  refs.find? (fun r => r.controller = some true)

/-- meta_v1.IsControlledBy: the object has a controller owner reference whose
UID is the owner's UID. -/
def isControlledBy (obj : Unstructured) (ownerUID : String) : Bool :=
  match getControllerOf obj.ownerRefs with
  | some r => r.uid = ownerUID
  | none => false

/-- An API call performed by the sync task. The delete action records the UID
precondition and whether foreground propagation policy was used. -/
inductive ApiAction
  | createAct (gvk : GroupVersionKind) (name : String)
  | updateAct (gvk : GroupVersionKind) (name : String)
  | deleteAct (gvk : GroupVersionKind) (name : String) (uid : String)
      (foreground : Bool)
deriving DecidableEq, Repr

/-- Responses of all external collaborators of the sync task: the smart
client, the object store, the spec checker, the ready checker, the reference
processor and the bundle client. -/
structure Env where
  forGVK : GroupVersionKind → Option Err
  storeGet : GroupVersionKind → String → Except Err (Option Unstructured)
  createResp : Unstructured → Except Err Unstructured
  updateResp : Unstructured → Except Err Unstructured
  deleteResp : GroupVersionKind → String → String → Option Err
  compareResp : Unstructured → Unstructured → Except Err (Unstructured × Bool)
  isReady : Option Unstructured → Bool × Bool × Option Err
  processObject : Unstructured → Except Err Unstructured
  objectsForBundle : Except Err (List Unstructured)
  statusUpdateResp : Bundle → Option Err

/-- The mutable fields of syncTask that the per-resource steps read: the bundle
snapshot and the ready-resources map. -/
structure SyncState where
  bundle : Bundle
  readyResources : List (String × Unstructured)

/-- mergeLabels: later maps win. -/
def mergeLabels (ms : List (List (String × String))) : List (String × String) :=
  ms.foldl (fun acc m => m.foldl (fun a kv => ainsert kv.1 kv.2 a) acc) []

/-- The smith.BundleNameLabel constant (defined in the root smith package,
outside the sync-task file; its exact value is irrelevant here). -/
def bundleNameLabel : String := "bundleName"

/-- The controller owner reference to the parent Bundle appended by evalSpec
(APIVersion/Kind hardcoded in the source to the Bundle group version / kind). -/
def bundleOwnerRef (bundle : Bundle) : OwnerReference :=
  { apiVersion := "smith.atlassian.com/v1"
    kind := "Bundle"
    name := bundle.name
    uid := bundle.uid
    controller := some true
    blockOwnerDeletion := some true }

/-- The non-controller owner reference to a dependency's observed object
appended by evalSpec. -/
def depOwnerRef (obj : Unstructured) : OwnerReference :=
  { apiVersion := apiVersionOf obj.gvk
    kind := obj.gvk.kind
    name := obj.name
    uid := obj.uid
    controller := none
    blockOwnerDeletion := some true }

/-- The incoming owner-reference loop of evalSpec: fail on any reference with
Controller true, otherwise set BlockOwnerDeletion on every reference. -/
def processOwnerRefs (resName : String) :
    List OwnerReference → Except Err (List OwnerReference)
  | [] => .ok []
  | r :: rest =>
    if r.controller = some true then
      .error (.api .otherCause
        ("cannot create resource \x22" ++ resName ++
          "\x22 with controller owner reference"))
    else
      match processOwnerRefs resName rest with
      | .error e => .error e
      | .ok rs => .ok ({ r with blockOwnerDeletion := some true } :: rs)

/-- evalSpec: convert the resource spec, process references (external
collaborator), stamp labels, validate and extend owner references. The source
indexes readyResources without a presence check for dependsOn entries (a
comment argues they are always present); the model uses the Go zero value
for an absent key. -/
def evalSpec (env : Env) (st : SyncState) (res : Resource) :
    Except Err Unstructured :=
  match env.processObject res.spec with
  | .error e => .error e
  | .ok spec0 =>
    let spec1 := { spec0 with
      labels := mergeLabels
        [st.bundle.labels, spec0.labels, [(bundleNameLabel, st.bundle.name)]] }
    match processOwnerRefs res.name spec1.ownerRefs with
    | .error e => .error e
    | .ok refs =>
      .ok { spec1 with
        ownerRefs := refs ++ [bundleOwnerRef st.bundle] ++
          res.dependsOn.map (fun d =>
            depOwnerRef ((alookup d st.readyResources).getD
              defaultUnstructured)) }

/-- createResource: create the object; AlreadyExists is wrapped into a
non-retriable conflict, any other error is retriable. -/
def createResource (env : Env) (spec : Unstructured) :
    List ApiAction × Option Unstructured × Bool × Option Err :=
  let actions := [ApiAction.createAct spec.gvk spec.name]
  match env.createResp spec with
  | .ok response => (actions, some response, false, none)
  | .error e =>
    if e.isAlreadyExists then
      (actions, none, false,
        some (wrapErr
          ("object \x22" ++ spec.name ++
            "\x22 found, but not in Store yet (will re-process)")
          (newConflict spec.gvk spec.name e)))
    else
      (actions, none, true, some e)

/-- updateResource: refuse objects marked for deletion or not controlled by
the Bundle (terminal), skip the update when the spec matches, treat an update
conflict as non-retriable and any other update error as retriable. -/
def updateResource (env : Env) (st : SyncState) (spec actual : Unstructured) :
    List ApiAction × Option Unstructured × Bool × Option Err :=
  if actual.deletionTs.isSome then
    ([], none, false,
      some (.api .otherCause
        ("object \x22" ++ actual.name ++ "\x22 is marked for deletion")))
  else if !isControlledBy actual st.bundle.uid then
    ([], none, false,
      some (.api .otherCause
        ("object \x22" ++ actual.name ++ "\x22 is not owned by the Bundle")))
  else
    match env.compareResp spec actual with
    | .error e => ([], none, false, some e)
    | .ok (updated, matched) =>
      if matched then
        ([], some updated, false, none)
      else
        match env.updateResp updated with
        | .error e =>
          if e.isConflictErr then
            ([ApiAction.updateAct spec.gvk spec.name], none, false,
              some (wrapErr
                ("object \x22" ++ spec.name ++
                  "\x22 update resulted in conflict (will re-process)") e))
          else
            ([ApiAction.updateAct spec.gvk spec.name], none, true, some e)
        | .ok updated2 =>
          ([ApiAction.updateAct spec.gvk spec.name], some updated2, false,
            none)

/-- createOrUpdate: acquire a client, read the local store, then update or
create. -/
def createOrUpdate (env : Env) (st : SyncState) (spec : Unstructured) :
    List ApiAction × Option Unstructured × Bool × Option Err :=
  match env.forGVK spec.gvk with
  | some e => ([], none, false, some e)
  | none =>
    match env.storeGet spec.gvk spec.name with
    | .error e => ([], none, false, some e)
    | .ok (some obj) => updateResource env st spec obj
    | .ok none => createResource env spec

/-- checkResource: evaluate the spec, create or update, then consult the ready
checker; returns the observed object only when it is ready. -/
def checkResource (env : Env) (st : SyncState) (res : Resource) :
    List ApiAction × Option Unstructured × Bool × Option Err :=
  match evalSpec env st res with
  | .error e => ([], none, false, some e)
  | .ok spec =>
    match createOrUpdate env st spec with
    | (actions, _, retriable, some e) => (actions, none, retriable, some e)
    | (actions, resUpdated, _, none) =>
      let r := env.isReady resUpdated
      if r.2.2.isSome || !r.1 then (actions, none, r.2.1, r.2.2)
      else (actions, resUpdated, false, none)

/-- The (gvk, name) pair keying children for deletion reconciliation. -/
structure ObjectRef where
  gvk : GroupVersionKind
  name : String
deriving DecidableEq, Repr

/-- One step of the child-map build of deleteRemovedResources: skip objects
already marked for deletion and objects not controlled by the Bundle,
otherwise record the (gvk, name) → uid entry. -/
def buildStep (bundleUID : String) (acc : List (ObjectRef × String))
    (obj : Unstructured) : List (ObjectRef × String) :=
  if obj.deletionTs.isSome then acc
  else if !isControlledBy obj bundleUID then acc
  else ainsert { gvk := obj.gvk, name := obj.name } obj.uid acc

/-- The eligibility filter of deleteRemovedResources: build the map of owned
children keyed by (gvk, name). -/
def buildExistingObjs (bundleUID : String) (objs : List Unstructured) :
    List (ObjectRef × String) :=
  objs.foldl (buildStep bundleUID) []

/-- One iteration of the deletion loop of deleteRemovedResources, acting on
the accumulated (retriable, firstErr, actions). -/
def deleteStep (env : Env) (acc : Bool × Option Err × List ApiAction)
    (item : ObjectRef × String) : Bool × Option Err × List ApiAction :=
  match env.forGVK item.1.gvk with
  | some e =>
    if acc.2.1 = none then (false, some e, acc.2.2)
    else acc
  | none =>
    let actions := acc.2.2 ++
      [ApiAction.deleteAct item.1.gvk item.1.name item.2 true]
    match env.deleteResp item.1.gvk item.1.name item.2 with
    | some e =>
      if e.isNotFound || e.isConflictErr then (acc.1, acc.2.1, actions)
      else if acc.2.1 = none then (acc.1, some e, actions)
      else (acc.1, acc.2.1, actions)
    | none => (acc.1, acc.2.1, actions)

/-- The deletion targets of deleteRemovedResources: the owned children minus
every (gvk, name) declared in the bundle's resource list. -/
def gcTargets (bundle : Bundle) (objs : List Unstructured) :
    List (ObjectRef × String) :=
  bundle.resources.foldl
    (fun m res => aerase { gvk := res.spec.gvk, name := res.spec.name } m)
    (buildExistingObjs bundle.uid objs)

/-- deleteRemovedResources: list the Bundle's children from the store, subtract
the currently declared (gvk, name) pairs, and delete the remainder with a UID
precondition and foreground propagation; the first error is kept, NotFound and
Conflict delete responses count as success. Go map iteration order is
refined to the insertion order of the association list. -/
def deleteRemovedResources (env : Env) (bundle : Bundle) :
    List ApiAction × Bool × Option Err :=
  match env.objectsForBundle with
  | .error e => ([], false, some e)
  | .ok objs =>
    let r := (gcTargets bundle objs).foldl (deleteStep env) (true, none, [])
    (r.2.2, r.1, r.2.1)

/-- Modelled from the spec: the graph package (pkg/util/graph) is not under
src/. Vertices are resource names in declaration order; an edge (a, b) means
a depends on b. -/
structure Graph where
  vertices : List String
  edges : List (String × String)
deriving DecidableEq, Repr

/-- Modelled from the spec: Vertex.Edges() of the graph package — the
dependency names of a vertex. -/
def graphEdges (g : Graph) (v : String) : List String :=
  (g.edges.filter (fun e => e.1 = v)).map (fun e => e.2)

/-- Modelled from the spec: one step of the topological sort — the first
vertex in declaration order all of whose dependencies are already emitted. -/
def topoStep (edges : List (String × String)) (emitted remaining : List String) :
    Option String :=
  remaining.find? (fun v =>
    (edges.filter (fun e => e.1 = v)).all (fun e => emitted.contains e.2))

/-- Modelled from the spec: fuel-driven Kahn-style loop of
Graph.TopologicalSort; reports a cycle when no eligible vertex remains. The
accumulator holds emitted vertices most-recent-first. -/
def topoSortGo (edges : List (String × String)) :
    Nat → List String → List String → Except Err (List String)
  | _, emitted, [] => .ok emitted.reverse
  | 0, _, _ :: _ => .error (.api .otherCause "graph contains a cycle")
  | fuel + 1, emitted, remaining =>
    match topoStep edges emitted remaining with
    | none => .error (.api .otherCause "graph contains a cycle")
    | some v => topoSortGo edges fuel (v :: emitted) (remaining.erase v)

/-- Modelled from the spec: Graph.TopologicalSort — dependency-respecting
order, ties broken by declaration order, cycles reported as errors. -/
def topologicalSort (g : Graph) : Except Err (List String) :=
  topoSortGo g.edges g.vertices.length [] g.vertices

/-- Modelled from the spec: Graph.AddEdge fails with a structural error when an
endpoint is not a declared vertex; this adds the edges of one resource. -/
def addDeps (vertices : List String) (rname : String) :
    List String → Except Err (List (String × String))
  | [] => .ok []
  | d :: rest =>
    if vertices.contains rname && vertices.contains d then
      match addDeps vertices rname rest with
      | .error e => .error e
      | .ok es => .ok ((rname, d) :: es)
    else
      .error (.api .otherCause ("vertex \x22" ++ d ++ "\x22 not found"))

/-- Edge-building loop of sortBundle over all resources. -/
def addAllEdges (vertices : List String) :
    List Resource → Except Err (List (String × String))
  | [] => .ok []
  | res :: rest =>
    match addDeps vertices res.name res.dependsOn with
    | .error e => .error e
    | .ok es =>
      match addAllEdges vertices rest with
      | .error e => .error e
      | .ok es2 => .ok (es ++ es2)

/-- sortBundle: add every resource name as a vertex, add a dependency edge for
every dependsOn entry, then topologically sort. -/
def sortBundle (bundle : Bundle) : Except Err (Graph × List String) :=
  let vertices := bundle.resources.map (fun r => r.name)
  match addAllEdges vertices bundle.resources with
  | .error e => .error e
  | .ok edges =>
    match topologicalSort { vertices := vertices, edges := edges } with
    | .error e => .error e
    | .ok sorted => .ok ({ vertices := vertices, edges := edges }, sorted)

/-- The resource-map building loop of process: fails on a duplicate resource
name. -/
def buildResourceMapGo (acc : List (String × Resource)) :
    List Resource → Except Err (List (String × Resource))
  | [] => .ok acc
  | res :: rest =>
    if (alookup res.name acc).isSome then
      .error (.api .otherCause
        ("bundle contains two resources with the same name \x22" ++
          res.name ++ "\x22"))
    else buildResourceMapGo (ainsert res.name res acc) rest

def buildResourceMap (resources : List Resource) :
    Except Err (List (String × Resource)) :=
  buildResourceMapGo [] resources

/-- The vertex-visiting loop of process: skip a vertex whose dependencies are
not all in the ready map, otherwise run checkResource and record the observed
object when it is ready. Returns the accumulated actions, the final ready map
and the (retriable, error) outcome. -/
def visitVertices (env : Env) (bundle : Bundle)
    (rmap : List (String × Resource)) (g : Graph) :
    List String → List (String × Unstructured) →
    List ApiAction × List (String × Unstructured) × Bool × Option Err
  | [], ready => ([], ready, false, none)
  | v :: rest, ready =>
    if (graphEdges g v).all (fun d => (alookup d ready).isSome) then
      let res := (alookup v rmap).getD defaultResource
      match checkResource env { bundle := bundle, readyResources := ready }
        res with
      | (actions, _, retriable, some e) => (actions, ready, retriable, some e)
      | (actions, readyResource, _, none) =>
        let ready2 := match readyResource with
          | some r => ainsert v r ready
          | none => ready
        let rec2 := visitVertices env bundle rmap g rest ready2
        (actions ++ rec2.1, rec2.2.1, rec2.2.2.1, rec2.2.2.2)
    else
      visitVertices env bundle rmap g rest ready

/-- process: build the resource map (duplicate names are terminal), build and
sort the graph (terminal on failure), visit vertices in order, then garbage
collect removed resources. Returns the action trace, the final readyResources
map and (retriable, error). -/
def process (env : Env) (bundle : Bundle) :
    List ApiAction × List (String × Unstructured) × Bool × Option Err :=
  match buildResourceMap bundle.resources with
  | .error e => ([], [], false, some e)
  | .ok rmap =>
    match sortBundle bundle with
    | .error e => ([], [], false, some e)
    | .ok gs =>
      match visitVertices env bundle rmap gs.1 gs.2 [] with
      | (actions, ready, retriable, some e) =>
        (actions, ready, retriable, some e)
      | (actions, ready, _, none) =>
        let d := deleteRemovedResources env bundle
        match d.2.2 with
        | some e => (actions ++ d.1, ready, d.2.1, some e)
        | none => (actions ++ d.1, ready, false, none)

/-- isBundleReady: every declared resource has a (non-nil) entry in
readyResources. -/
def isBundleReady (bundle : Bundle)
    (ready : List (String × Unstructured)) : Bool :=
  bundle.resources.all (fun res => (alookup res.name ready).isSome)

/-- setBundleStatus: write the bundle through the bundle client; a Conflict is
swallowed, any other error is wrapped into a fresh (non-conflict) error. -/
def setBundleStatus (env : Env) (bundle : Bundle) : Option Err :=
  match env.statusUpdateResp bundle with
  | some e =>
    if e.isConflictErr then none
    else
      some (.api .otherCause
        ("failed to set bundle " ++ bundle.ns ++ "/" ++ bundle.name ++
          " status: " ++ e.message))
  | none => none

/-- Condition lookup by type. -/
def findCondition : List BundleCondition → ConditionType → Option BundleCondition
  | [], _ => none
  | c :: rest, t => if c.condType = t then some c else findCondition rest t

/-- Whether two conditions agree on their effective value (status, reason,
message). -/
def condEffectivelyEqual (a b : BundleCondition) : Bool :=
  a.status = b.status && a.reason = b.reason && a.message = b.message

/-- Modelled from the spec: Bundle.UpdateCondition (pkg/apis/smith/v1, not
under src/) — "Conditions are updated in place by type; UpdateCondition
returns whether the effective value changed." A missing condition is appended
and counts as changed. -/
def updateCondition (bundle : Bundle) (cond : BundleCondition) :
    Bundle × Bool :=
  match findCondition bundle.conditions cond.condType with
  | none =>
    ({ bundle with conditions := bundle.conditions ++ [cond] }, true)
  | some old =>
    let newConds := bundle.conditions.map
      (fun c => if c.condType = cond.condType then cond else c)
    ({ bundle with conditions := newConds }, !condEffectivelyEqual old cond)

/-- The condition-folding block of handleProcessResult: the three conditions
computed from the process outcome. -/
def foldedConds (bundle : Bundle) (ready : List (String × Unstructured))
    (retriable : Bool) (processErr : Option Err) :
    BundleCondition × BundleCondition × BundleCondition :=
  let inProgressCond : BundleCondition :=
    { condType := .bundleInProgress, status := .conditionFalse,
      reason := "", message := "" }
  let readyCond : BundleCondition :=
    { condType := .bundleReady, status := .conditionFalse,
      reason := "", message := "" }
  let errorCond : BundleCondition :=
    { condType := .bundleError, status := .conditionFalse,
      reason := "", message := "" }
  match processErr with
  | none =>
    if isBundleReady bundle ready then
      (inProgressCond, { readyCond with status := .conditionTrue }, errorCond)
    else
      ({ inProgressCond with status := .conditionTrue }, readyCond, errorCond)
  | some e =>
    if retriable then
      let ec : BundleCondition := { errorCond with status := .conditionTrue, reason := "RetriableError", message := e.message }
      ({ inProgressCond with status := .conditionTrue }, readyCond, ec)
    else
      let ec : BundleCondition := { errorCond with status := .conditionTrue, reason := "TerminalError", message := e.message }
      (inProgressCond, readyCond, ec)

/-- The outcome of handleProcessResult: the (possibly) condition-updated
bundle, whether a status write was attempted, and the returned
(retriable, error) pair. -/
structure HandleResult where
  bundle : Bundle
  statusWritten : Bool
  retriable : Bool
  err : Option Err
deriving Repr

/-- handleProcessResult: surface conflict-caused and context sentinel errors
before folding; otherwise fold the outcome into the three conditions, and
write status only when at least one condition's effective value changed. A nil
process error is replaced by the status-write outcome with retriable forced to
true. -/
def handleProcessResult (env : Env) (bundle : Bundle)
    (ready : List (String × Unstructured)) (retriable : Bool)
    (processErr : Option Err) : HandleResult :=
  if (processErr.map Err.isConflictErr).getD false then
    { bundle := bundle, statusWritten := false, retriable := retriable,
      err := processErr }
  else if processErr = some .ctxCanceled ∨
      processErr = some .ctxDeadlineExceeded then
    { bundle := bundle, statusWritten := false, retriable := false,
      err := processErr }
  else
    let conds := foldedConds bundle ready retriable processErr
    let u1 := updateCondition bundle conds.1
    let u2 := updateCondition u1.1 conds.2.1
    let u3 := updateCondition u2.1 conds.2.2
    if u1.2 || u2.2 || u3.2 then
      let ex := setBundleStatus env u3.1
      match processErr with
      | none =>
        { bundle := u3.1, statusWritten := true, retriable := true, err := ex }
      | some e =>
        { bundle := u3.1, statusWritten := true, retriable := retriable,
          err := some e }
    else
      { bundle := u3.1, statusWritten := false, retriable := retriable,
        err := processErr }

/-- The folding-and-write tail of handleProcessResult, named so that the
special-case-free behaviour can be reasoned about in one place. -/
def foldHandle (env : Env) (b : Bundle)
    (ready : List (String × Unstructured)) (ret : Bool) (pe : Option Err) :
    HandleResult :=
  let conds := foldedConds b ready ret pe
  let u1 := updateCondition b conds.1
  let u2 := updateCondition u1.1 conds.2.1
  let u3 := updateCondition u2.1 conds.2.2
  if u1.2 || u2.2 || u3.2 then
    match pe with
    | none =>
      { bundle := u3.1, statusWritten := true, retriable := true,
        err := setBundleStatus env u3.1 }
    | some e =>
      { bundle := u3.1, statusWritten := true, retriable := ret,
        err := some e }
  else
    { bundle := u3.1, statusWritten := false, retriable := ret, err := pe }

/-- Whether a condition with the same type and the same effective value is
already present on the bundle. -/
def effPresent (b : Bundle) (c : BundleCondition) : Bool :=
  match findCondition b.conditions c.condType with
  | some old => condEffectivelyEqual old c
  | none => false

/-! Concrete fixtures used by witnesses and counterexamples. -/

def gvkA : GroupVersionKind := { group := "g", version := "v1", kind := "A" }

def gvkB : GroupVersionKind := { group := "g", version := "v1", kind := "B" }

def mkObj (g : GroupVersionKind) (n u : String) : Unstructured :=
  { gvk := g, name := n, uid := u, labels := [], ownerRefs := [],
    deletionTs := none, body := 0 }

def resA : Resource :=
  { name := "a", dependsOn := [], spec := mkObj gvkA "obj-a" "" }

def resB : Resource :=
  { name := "b", dependsOn := ["a"], spec := mkObj gvkB "obj-b" "" }

def bundleW : Bundle :=
  { ns := "ns", name := "bun", uid := "bundle-uid", labels := [],
    resources := [resA, resB], conditions := [] }

/-- An environment in which every collaborator call succeeds. -/
def envW : Env :=
  { forGVK := fun _ => none
    storeGet := fun _ _ => .ok none
    createResp := fun spec => .ok { spec with uid := "created-" ++ spec.name }
    updateResp := fun spec => .ok spec
    deleteResp := fun _ _ _ => none
    compareResp := fun spec _ => .ok (spec, true)
    isReady := fun _ => (true, false, none)
    processObject := fun spec => .ok spec
    objectsForBundle := .ok []
    statusUpdateResp := fun _ => none }

/-- The controller owner reference of bundleW, as it appears on its children. -/
def bundleCtrlRef : OwnerReference :=
  { apiVersion := "smith.atlassian.com/v1"
    kind := "Bundle"
    name := "bun"
    uid := "bundle-uid"
    controller := some true
    blockOwnerDeletion := some true }

/-- A resource whose declared spec carries an incoming controller owner
reference that is exactly the parent Bundle. -/
def specSelfRef : Unstructured :=
  { gvk := gvkA, name := "obj-a", uid := "", labels := [],
    ownerRefs := [bundleCtrlRef], deletionTs := none, body := 0 }

def resSelfRef : Resource :=
  { name := "a", dependsOn := [], spec := specSelfRef }

/-- A stray child of bundleW (gvk B, not declared in the bundle). -/
def strayObjB : Unstructured :=
  { gvk := gvkB, name := "obj-c", uid := "uid-c", labels := [],
    ownerRefs := [bundleCtrlRef], deletionTs := none, body := 0 }

/-- A second stray child of bundleW (gvk A, not declared in the bundle). -/
def strayObjA : Unstructured :=
  { gvk := gvkA, name := "obj-d", uid := "uid-d", labels := [],
    ownerRefs := [bundleCtrlRef], deletionTs := none, body := 0 }

/-- Environment for the C3 counterexample: the store reports two stray
children; the client for gvk B cannot be acquired, and the delete of the gvk A
child fails with an ordinary error. -/
def envC3 : Env :=
  { envW with
    objectsForBundle := .ok [strayObjB, strayObjA]
    forGVK := fun g => if g = gvkB then some (.api .otherCause "no client") else none
    deleteResp := fun g _ _ => if g = gvkA then some (.api .otherCause "delete boom") else none }

/-- A bundle with a dependsOn cycle between a and b. -/
def resACyc : Resource :=
  { name := "a", dependsOn := ["b"], spec := mkObj gvkA "obj-a" "" }

def bundleCycle : Bundle :=
  { bundleW with resources := [resACyc, resB] }

/-- The sequence of errors the GC deletion loop encounters over its items, in
order; each entry records whether the error came from acquiring a client
(true) or from the delete call itself (false). NotFound and Conflict delete
responses are not errors. -/
def gcErrors (env : Env) : List (ObjectRef × String) → List (Bool × Err)
  | [] => []
  | item :: rest =>
    match env.forGVK item.1.gvk with
    | some e => (true, e) :: gcErrors env rest
    | none =>
      match env.deleteResp item.1.gvk item.1.name item.2 with
      | some e =>
        if e.isNotFound || e.isConflictErr then gcErrors env rest
        else (false, e) :: gcErrors env rest
      | none => gcErrors env rest

/-- The eligibility test of the GC pass: not already marked for deletion and
controlled by the bundle. -/
def gcEligible (bundleUID : String) (o : Unstructured) : Bool :=
  !o.deletionTs.isSome && isControlledBy o bundleUID

/-- The (gvk, name) key of an observed object. -/
def refOfObj (o : Unstructured) : ObjectRef :=
  { gvk := o.gvk, name := o.name }

/-- The full dependency edge list a bundle declares: one (resource name,
dependency name) pair per dependsOn entry, in declaration order. -/
def bundleEdges : List Resource → List (String × String)
  | [] => []
  | res :: rest =>
    res.dependsOn.map (fun d => (res.name, d)) ++ bundleEdges rest

/-- A nonempty path in the dependency edge list. -/
inductive EdgePath (edges : List (String × String)) : String → String → Prop
  | single (a b : String) : (a, b) ∈ edges → EdgePath edges a b
  | cons (a b c : String) : (a, b) ∈ edges → EdgePath edges b c →
      EdgePath edges a c

/-- The emission invariant of the topological sort: in the accumulator
(most recently emitted first), every edge source has all its targets emitted
strictly earlier, i.e. in the tail. -/
def RespectsRev (edges : List (String × String)) : List String → Prop
  | [] => True
  | v :: rest =>
    (∀ e ∈ edges, e.1 = v → e.2 ∈ rest) ∧ RespectsRev edges rest

/-- Rank of a vertex in the reversed emission order: distance from the end of
the accumulator at its first occurrence. -/
def rankIn : List String → String → Nat
  | [], _ => 0
  | v :: rest, x => if v = x then rest.length else rankIn rest x

/-! Further fixtures for witnesses. -/

def stW : SyncState := { bundle := bundleW, readyResources := [] }

def objAReady : Unstructured := mkObj gvkA "obj-a" "uid-a"

def stB : SyncState :=
  { bundle := bundleW, readyResources := [("a", objAReady)] }

/-- An observed object already marked for deletion. -/
def objDeleted : Unstructured :=
  { gvk := gvkA, name := "obj-a", uid := "u1", labels := [], ownerRefs := [],
    deletionTs := some 5, body := 0 }

def gW : Graph := { vertices := ["a", "b"], edges := [("b", "a")] }

def rmapW : List (String × Resource) := [("a", resA), ("b", resB)]

/-! Association-list lemmas. -/

theorem alookup_ainsert {κ ν : Type} [DecidableEq κ] (k k' : κ) (v : ν)
    (l : List (κ × ν)) :
    alookup k (ainsert k' v l) = if k' = k then some v else alookup k l := by
  induction l with
  | nil => simp [alookup, ainsert]
  | cons x xs ih =>
    obtain ⟨a, b⟩ := x
    simp only [ainsert]
    by_cases h : a = k'
    · simp only [if_pos h, alookup]
      by_cases h2 : k' = k
      · simp [h2]
      · have hx : ¬a = k := fun hh => h2 (h.symm.trans hh)
        simp [if_neg h2, alookup, hx]
    · simp only [if_neg h, alookup]
      by_cases hx : a = k
      · have h2 : ¬k' = k := fun hh => h (hx.trans hh.symm)
        simp [hx, if_neg h2]
      · simp [hx, ih]

/-! Condition lookup and update lemmas. -/

theorem findCondition_append (l1 l2 : List BundleCondition)
    (t : ConditionType) :
    findCondition (l1 ++ l2) t =
      match findCondition l1 t with
      | some c => some c
      | none => findCondition l2 t := by
  induction l1 with
  | nil => simp [findCondition]
  | cons x xs ih =>
    by_cases h : x.condType = t
    · simp [findCondition, h]
    · simp [findCondition, h, ih]

theorem findCondition_map_replace_self (l : List BundleCondition)
    (c old : BundleCondition) (h : findCondition l c.condType = some old) :
    findCondition
      (l.map (fun x => if x.condType = c.condType then c else x))
      c.condType = some c := by
  induction l with
  | nil => simp [findCondition] at h
  | cons x xs ih =>
    by_cases hx : x.condType = c.condType
    · simp [findCondition, hx]
    · simp only [findCondition, hx, if_false, if_neg hx] at h
      simp only [List.map_cons, if_neg hx, findCondition, hx, if_false]
      exact ih h

theorem findCondition_map_replace_other (l : List BundleCondition)
    (c : BundleCondition) (t : ConditionType) (h : t ≠ c.condType) :
    findCondition
      (l.map (fun x => if x.condType = c.condType then c else x)) t =
      findCondition l t := by
  induction l with
  | nil => simp [findCondition]
  | cons x xs ih =>
    by_cases hx : x.condType = c.condType
    · have h1 : ¬c.condType = t := fun hh => h hh.symm
      have h2 : ¬x.condType = t := fun hh => h (hx ▸ hh).symm
      simp only [List.map_cons, if_pos hx, findCondition, h1, h2, if_false, ih]
    · simp only [List.map_cons, if_neg hx, findCondition, ih]

theorem findCondition_updateCondition_self (b : Bundle)
    (c : BundleCondition) :
    findCondition (updateCondition b c).1.conditions c.condType = some c := by
  unfold updateCondition
  cases h : findCondition b.conditions c.condType with
  | none => simp [findCondition_append, h, findCondition]
  | some old =>
    simpa using findCondition_map_replace_self b.conditions c old h

theorem findCondition_updateCondition_other (b : Bundle)
    (c : BundleCondition) (t : ConditionType) (h : t ≠ c.condType) :
    findCondition (updateCondition b c).1.conditions t =
      findCondition b.conditions t := by
  unfold updateCondition
  cases hf : findCondition b.conditions c.condType with
  | none =>
    have hne : ¬c.condType = t := fun hh => h hh.symm
    cases hg : findCondition b.conditions t <;>
      simp [findCondition_append, hg, findCondition, hne]
  | some old =>
    simpa using findCondition_map_replace_other b.conditions c t h

theorem updateCondition_changed (b : Bundle) (c : BundleCondition) :
    (updateCondition b c).2 = !effPresent b c := by
  unfold updateCondition effPresent
  cases h : findCondition b.conditions c.condType <;> simp [h]

/-- The three folded conditions always carry the three condition types in
order. -/
theorem foldedConds_types (b : Bundle) (ready : List (String × Unstructured))
    (ret : Bool) (pe : Option Err) :
    (foldedConds b ready ret pe).1.condType = .bundleInProgress ∧
    (foldedConds b ready ret pe).2.1.condType = .bundleReady ∧
    (foldedConds b ready ret pe).2.2.condType = .bundleError := by
  unfold foldedConds
  cases pe with
  | none => by_cases h : isBundleReady b ready <;> simp [h]
  | some e => cases ret <;> simp

/-- When neither special case fires, handleProcessResult is the folding block
followed by the conditional status write. -/
theorem handleProcessResult_eq_fold (env : Env) (b : Bundle)
    (ready : List (String × Unstructured)) (ret : Bool) (pe : Option Err)
    (hc : (pe.map Err.isConflictErr).getD false = false)
    (hs1 : pe ≠ some Err.ctxCanceled) (hs2 : pe ≠ some Err.ctxDeadlineExceeded) :
    handleProcessResult env b ready ret pe = foldHandle env b ready ret pe := by
  unfold handleProcessResult foldHandle
  rw [if_neg (by simp [hc]), if_neg (by simp [hs1, hs2])]

/-- The bundle returned by the folding block is the three-fold condition
update of the input bundle, whatever the write outcome. -/
theorem foldHandle_bundle (env : Env) (b : Bundle)
    (ready : List (String × Unstructured)) (ret : Bool) (pe : Option Err) :
    (foldHandle env b ready ret pe).bundle =
      (updateCondition (updateCondition (updateCondition b
        (foldedConds b ready ret pe).1).1
        (foldedConds b ready ret pe).2.1).1
        (foldedConds b ready ret pe).2.2).1 := by
  unfold foldHandle
  dsimp only
  split
  · cases pe <;> rfl
  · rfl

/-- After the folding block, each of the three conditions on the resulting
bundle is exactly the folded condition of its type. -/
theorem handleProcessResult_conditions (env : Env) (b : Bundle)
    (ready : List (String × Unstructured)) (ret : Bool) (pe : Option Err)
    (hc : (pe.map Err.isConflictErr).getD false = false)
    (hs1 : pe ≠ some Err.ctxCanceled) (hs2 : pe ≠ some Err.ctxDeadlineExceeded) :
    findCondition (handleProcessResult env b ready ret pe).bundle.conditions
        .bundleInProgress = some (foldedConds b ready ret pe).1 ∧
    findCondition (handleProcessResult env b ready ret pe).bundle.conditions
        .bundleReady = some (foldedConds b ready ret pe).2.1 ∧
    findCondition (handleProcessResult env b ready ret pe).bundle.conditions
        .bundleError = some (foldedConds b ready ret pe).2.2 := by
  obtain ⟨t1, t2, t3⟩ := foldedConds_types b ready ret pe
  rw [handleProcessResult_eq_fold env b ready ret pe hc hs1 hs2,
    foldHandle_bundle]
  refine ⟨?_, ?_, ?_⟩
  · rw [findCondition_updateCondition_other _ _ _ (by rw [t3]; decide),
      findCondition_updateCondition_other _ _ _ (by rw [t2]; decide)]
    conv_lhs => rw [← t1]
    exact findCondition_updateCondition_self _ _
  · rw [findCondition_updateCondition_other _ _ _ (by rw [t3]; decide)]
    conv_lhs => rw [← t2]
    exact findCondition_updateCondition_self _ _
  · conv_lhs => rw [← t3]
    exact findCondition_updateCondition_self _ _

/-- C4: the two special cases of handleProcessResult bypass condition folding
and status writing entirely: a process error whose cause is a write conflict
is returned unchanged with the retriable flag passed in, and a context
cancellation / deadline sentinel is returned with retriable=false; in both
cases the bundle (hence every condition) is untouched and no status write
happens, so a conflict error never produces an Error condition with reason
TerminalError. -/
theorem C4_handleProcessResult_special_cases (env : Env) (b : Bundle)
    (ready : List (String × Unstructured)) (ret : Bool) (pe : Option Err) :
    (∀ e, pe = some e → e.isConflictErr = true →
      handleProcessResult env b ready ret pe =
        { bundle := b, statusWritten := false, retriable := ret,
          err := some e }) ∧
    (pe = some Err.ctxCanceled ∨ pe = some Err.ctxDeadlineExceeded →
      handleProcessResult env b ready ret pe =
        { bundle := b, statusWritten := false, retriable := false,
          err := pe }) := by
  constructor
  · intro e hpe hconf
    subst hpe
    unfold handleProcessResult
    rw [if_pos (by simp [hconf])]
  · intro hpe
    unfold handleProcessResult
    have hc : (pe.map Err.isConflictErr).getD false = false := by
      rcases hpe with h | h <;> subst h <;> rfl
    rw [if_neg (by simp [hc]), if_pos hpe]

theorem C4_witness :
    handleProcessResult envW bundleW [] true
        (some (.api .conflictCause "cfl")) =
      { bundle := bundleW, statusWritten := false, retriable := true,
        err := some (.api .conflictCause "cfl") } ∧
    handleProcessResult envW bundleW [] true (some .ctxCanceled) =
      { bundle := bundleW, statusWritten := false, retriable := false,
        err := some .ctxCanceled } :=
  ⟨(C4_handleProcessResult_special_cases envW bundleW [] true
      (some (.api .conflictCause "cfl"))).1 _ rfl rfl,
   (C4_handleProcessResult_special_cases envW bundleW [] true
      (some .ctxCanceled)).2 (Or.inl rfl)⟩

/-- C10: on a successful pass whose folded conditions changed, the status
write is attempted with a nil process error, and the retriable flag is set to
true unconditionally; when the write succeeds the caller observes
(retriable=true, err=none). -/
theorem C10_success_write_retriable_true (env : Env) (b : Bundle)
    (ready : List (String × Unstructured)) (ret : Bool)
    (hw : (handleProcessResult env b ready ret none).statusWritten = true)
    (hok : env.statusUpdateResp
      (handleProcessResult env b ready ret none).bundle = none) :
    (handleProcessResult env b ready ret none).retriable = true ∧
    (handleProcessResult env b ready ret none).err = none := by
  rw [handleProcessResult_eq_fold env b ready ret none rfl
    (by decide) (by decide)] at hw hok ⊢
  unfold foldHandle at hw hok ⊢
  dsimp only at hw hok ⊢
  split at hw
  case isTrue h =>
    rw [if_pos h] at hok ⊢
    dsimp only at hok ⊢
    exact ⟨rfl, by simp [setBundleStatus, hok]⟩
  case isFalse h => simp at hw

theorem C10_witness :
    (handleProcessResult envW bundleW [] false none).statusWritten = true ∧
    (handleProcessResult envW bundleW [] false none).retriable = true ∧
    (handleProcessResult envW bundleW [] false none).err = none := by
  refine ⟨by decide, ?_⟩
  exact C10_success_write_retriable_true envW bundleW [] false
    (by decide) (by decide)

/-- C1: outside the two special cases, handleProcessResult folds the process
outcome into exactly the table: success with all resources ready gives
(InProgress=False, Ready=True, Error=False); success with some resource not
ready gives (True, False, False); a retriable error gives (True, False,
Error=True with reason RetriableError and the error text); a terminal error
gives (False, False, Error=True with reason TerminalError and the error
text). -/
theorem C1_handleProcessResult_condition_table (env : Env) (b : Bundle)
    (ready : List (String × Unstructured)) (ret : Bool) (pe : Option Err)
    (hc : ∀ e, pe = some e → e.isConflictErr = false)
    (hs1 : pe ≠ some Err.ctxCanceled)
    (hs2 : pe ≠ some Err.ctxDeadlineExceeded) :
    (pe = none → isBundleReady b ready = true →
      findCondition (handleProcessResult env b ready ret pe).bundle.conditions
          .bundleInProgress = some ⟨.bundleInProgress, .conditionFalse, "", ""⟩ ∧
      findCondition (handleProcessResult env b ready ret pe).bundle.conditions
          .bundleReady = some ⟨.bundleReady, .conditionTrue, "", ""⟩ ∧
      findCondition (handleProcessResult env b ready ret pe).bundle.conditions
          .bundleError = some ⟨.bundleError, .conditionFalse, "", ""⟩) ∧
    (pe = none → isBundleReady b ready = false →
      findCondition (handleProcessResult env b ready ret pe).bundle.conditions
          .bundleInProgress = some ⟨.bundleInProgress, .conditionTrue, "", ""⟩ ∧
      findCondition (handleProcessResult env b ready ret pe).bundle.conditions
          .bundleReady = some ⟨.bundleReady, .conditionFalse, "", ""⟩ ∧
      findCondition (handleProcessResult env b ready ret pe).bundle.conditions
          .bundleError = some ⟨.bundleError, .conditionFalse, "", ""⟩) ∧
    (∀ e, pe = some e → ret = true →
      findCondition (handleProcessResult env b ready ret pe).bundle.conditions
          .bundleInProgress = some ⟨.bundleInProgress, .conditionTrue, "", ""⟩ ∧
      findCondition (handleProcessResult env b ready ret pe).bundle.conditions
          .bundleReady = some ⟨.bundleReady, .conditionFalse, "", ""⟩ ∧
      findCondition (handleProcessResult env b ready ret pe).bundle.conditions
          .bundleError =
        some ⟨.bundleError, .conditionTrue, "RetriableError", e.message⟩) ∧
    (∀ e, pe = some e → ret = false →
      findCondition (handleProcessResult env b ready ret pe).bundle.conditions
          .bundleInProgress = some ⟨.bundleInProgress, .conditionFalse, "", ""⟩ ∧
      findCondition (handleProcessResult env b ready ret pe).bundle.conditions
          .bundleReady = some ⟨.bundleReady, .conditionFalse, "", ""⟩ ∧
      findCondition (handleProcessResult env b ready ret pe).bundle.conditions
          .bundleError =
        some ⟨.bundleError, .conditionTrue, "TerminalError", e.message⟩) := by
  have hc' : (pe.map Err.isConflictErr).getD false = false := by
    cases pe with
    | none => rfl
    | some e => simpa using hc e rfl
  have base := handleProcessResult_conditions env b ready ret pe hc' hs1 hs2
  refine ⟨?_, ?_, ?_, ?_⟩
  · intro hpe hrdy
    subst hpe
    simpa [foldedConds, hrdy] using base
  · intro hpe hrdy
    subst hpe
    simpa [foldedConds, hrdy] using base
  · intro e hpe hret
    subst hpe
    subst hret
    simpa [foldedConds] using base
  · intro e hpe hret
    subst hpe
    subst hret
    simpa [foldedConds] using base

theorem C1_witness :
    isBundleReady bundleW [] = false ∧
    findCondition
        (handleProcessResult envW bundleW [] false none).bundle.conditions
        .bundleInProgress =
      some ⟨.bundleInProgress, .conditionTrue, "", ""⟩ :=
  ⟨by decide,
    ((C1_handleProcessResult_condition_table envW bundleW [] false none
      (fun e h => nomatch h) (by decide) (by decide)).2.1 rfl (by decide)).1⟩

/-- C9: status is written back exactly when one of the three folded
conditions' effective value differs from what the bundle already carries; a
Conflict from the status write is swallowed by setBundleStatus; and when the
process error was nil and a write was attempted, the returned error is the
write outcome and the retriable flag is forced to true. -/
theorem C9_status_write_conditions (env : Env) (b : Bundle)
    (ready : List (String × Unstructured)) (ret : Bool) (pe : Option Err)
    (hc : ∀ e, pe = some e → e.isConflictErr = false)
    (hs1 : pe ≠ some Err.ctxCanceled)
    (hs2 : pe ≠ some Err.ctxDeadlineExceeded) :
    ((handleProcessResult env b ready ret pe).statusWritten =
      !(effPresent b (foldedConds b ready ret pe).1 &&
        effPresent b (foldedConds b ready ret pe).2.1 &&
        effPresent b (foldedConds b ready ret pe).2.2)) ∧
    (∀ bb e, env.statusUpdateResp bb = some e → e.isConflictErr = true →
      setBundleStatus env bb = none) ∧
    (pe = none →
      (handleProcessResult env b ready ret pe).statusWritten = true →
      (handleProcessResult env b ready ret pe).retriable = true ∧
      (handleProcessResult env b ready ret pe).err =
        setBundleStatus env (handleProcessResult env b ready ret pe).bundle) := by
  have hc' : (pe.map Err.isConflictErr).getD false = false := by
    cases pe with
    | none => rfl
    | some e => simpa using hc e rfl
  obtain ⟨t1, t2, t3⟩ := foldedConds_types b ready ret pe
  have h2eff : effPresent (updateCondition b (foldedConds b ready ret pe).1).1
      (foldedConds b ready ret pe).2.1 =
      effPresent b (foldedConds b ready ret pe).2.1 := by
    unfold effPresent
    rw [findCondition_updateCondition_other _ _ _ (by rw [t2, t1]; decide)]
  have h3eff : effPresent (updateCondition (updateCondition b
      (foldedConds b ready ret pe).1).1 (foldedConds b ready ret pe).2.1).1
      (foldedConds b ready ret pe).2.2 =
      effPresent b (foldedConds b ready ret pe).2.2 := by
    unfold effPresent
    rw [findCondition_updateCondition_other _ _ _ (by rw [t3, t2]; decide),
      findCondition_updateCondition_other _ _ _ (by rw [t3, t1]; decide)]
  have hbool : ∀ x y z : Bool, (!x || !y || !z) = !(x && y && z) := by decide
  rw [handleProcessResult_eq_fold env b ready ret pe hc' hs1 hs2]
  unfold foldHandle
  dsimp only
  rw [updateCondition_changed, updateCondition_changed, updateCondition_changed,
    h2eff, h3eff]
  refine ⟨?_, ?_, ?_⟩
  · split
    case isTrue h =>
      rw [← hbool]
      rw [h]
      cases pe <;> rfl
    case isFalse h =>
      rw [← hbool]
      simp only [Bool.not_eq_true] at h
      rw [h]
  · intro bb e h1 h2
    unfold setBundleStatus
    rw [h1]
    simp [h2]
  · intro hpe hw
    subst hpe
    split at hw
    case isTrue h =>
      rw [if_pos h]
      exact ⟨rfl, rfl⟩
    case isFalse h => exact absurd hw (by simp)

theorem C9_witness :
    (handleProcessResult envW bundleW [] false none).statusWritten =
      !(effPresent bundleW (foldedConds bundleW [] false none).1 &&
        effPresent bundleW (foldedConds bundleW [] false none).2.1 &&
        effPresent bundleW (foldedConds bundleW [] false none).2.2) :=
  (C9_status_write_conditions envW bundleW [] false none
    (fun e h => nomatch h) (by decide) (by decide)).1

/-- C5: error classification of createOrUpdate. A create failing with
AlreadyExists yields retriable=false and a conflict-caused wrapped error; any
other create failure yields retriable=true. On the update path: an object
marked for deletion or not controlled by the Bundle is terminal
(retriable=false); an update rejected with Conflict yields retriable=false;
any other update failure yields retriable=true. -/
theorem C5_createOrUpdate_error_classification (env : Env) (st : SyncState)
    (spec actual u : Unstructured) (e : Err) :
    (env.createResp spec = .error e → e.isAlreadyExists = true →
      createResource env spec =
        ([.createAct spec.gvk spec.name], none, false,
          some (wrapErr
            ("object \x22" ++ spec.name ++
              "\x22 found, but not in Store yet (will re-process)")
            (newConflict spec.gvk spec.name e))) ∧
      (wrapErr
        ("object \x22" ++ spec.name ++
          "\x22 found, but not in Store yet (will re-process)")
        (newConflict spec.gvk spec.name e)).isConflictErr = true) ∧
    (env.createResp spec = .error e → e.isAlreadyExists = false →
      createResource env spec =
        ([.createAct spec.gvk spec.name], none, true, some e)) ∧
    (actual.deletionTs.isSome = true →
      updateResource env st spec actual =
        ([], none, false, some (.api .otherCause
          ("object \x22" ++ actual.name ++ "\x22 is marked for deletion")))) ∧
    (actual.deletionTs.isSome = false →
      isControlledBy actual st.bundle.uid = false →
      updateResource env st spec actual =
        ([], none, false, some (.api .otherCause
          ("object \x22" ++ actual.name ++ "\x22 is not owned by the Bundle")))) ∧
    (actual.deletionTs.isSome = false →
      isControlledBy actual st.bundle.uid = true →
      env.compareResp spec actual = .ok (u, false) →
      env.updateResp u = .error e → e.isConflictErr = true →
      updateResource env st spec actual =
        ([.updateAct spec.gvk spec.name], none, false,
          some (wrapErr
            ("object \x22" ++ spec.name ++
              "\x22 update resulted in conflict (will re-process)") e))) ∧
    (actual.deletionTs.isSome = false →
      isControlledBy actual st.bundle.uid = true →
      env.compareResp spec actual = .ok (u, false) →
      env.updateResp u = .error e → e.isConflictErr = false →
      updateResource env st spec actual =
        ([.updateAct spec.gvk spec.name], none, true, some e)) := by
  refine ⟨?_, ?_, ?_, ?_, ?_, ?_⟩
  · intro h1 h2
    constructor
    · unfold createResource
      rw [h1]
      dsimp only
      rw [if_pos h2]
    · cases e <;> simp_all [Err.isAlreadyExists, wrapErr, newConflict,
        Err.isConflictErr]
  · intro h1 h2
    unfold createResource
    rw [h1]
    dsimp only
    rw [if_neg (by simp [h2])]
  · intro h1
    unfold updateResource
    rw [if_pos h1]
  · intro h1 h2
    unfold updateResource
    rw [if_neg (by simp [h1]), if_pos (by simp [h2])]
  · intro h1 h2 h3 h4 h5
    unfold updateResource
    rw [if_neg (by simp [h1]), if_neg (by simp [h2]), h3]
    dsimp only
    rw [if_neg (by simp), h4]
    dsimp only
    rw [if_pos h5]
  · intro h1 h2 h3 h4 h5
    unfold updateResource
    rw [if_neg (by simp [h1]), if_neg (by simp [h2]), h3]
    dsimp only
    rw [if_neg (by simp), h4]
    dsimp only
    rw [if_neg (by simp [h5])]

theorem C5_witness :
    updateResource envW stW (mkObj gvkA "obj-a" "") objDeleted =
      ([], none, false, some (.api .otherCause
        ("object \x22" ++ objDeleted.name ++ "\x22 is marked for deletion"))) :=
  (C5_createOrUpdate_error_classification envW stW (mkObj gvkA "obj-a" "")
    objDeleted defaultUnstructured (.api .otherCause "x")).2.2.1 rfl

/-! Owner-reference loop lemmas for C2. -/

theorem processOwnerRefs_ok (n : String) (l : List OwnerReference)
    (h : ∀ r ∈ l, r.controller ≠ some true) :
    processOwnerRefs n l =
      .ok (l.map (fun r => { r with blockOwnerDeletion := some true })) := by
  induction l with
  | nil => rfl
  | cons r rest ih =>
    have hr : ¬r.controller = some true := h r (List.mem_cons_self _ _)
    simp only [processOwnerRefs, if_neg hr]
    rw [ih (fun x hx => h x (List.mem_cons_of_mem _ hx))]
    rfl

theorem processOwnerRefs_error (n : String) (l : List OwnerReference)
    (h : ∃ r ∈ l, r.controller = some true) :
    processOwnerRefs n l =
      .error (.api .otherCause
        ("cannot create resource \x22" ++ n ++
          "\x22 with controller owner reference")) := by
  induction l with
  | nil => simp at h
  | cons r rest ih =>
    by_cases hr : r.controller = some true
    · simp only [processOwnerRefs, if_pos hr]
    · simp only [processOwnerRefs, if_neg hr]
      obtain ⟨x, hx, hxc⟩ := h
      rcases List.mem_cons.mp hx with hh | hh
      · exact absurd (hh ▸ hxc) hr
      · rw [ih ⟨x, hh, hxc⟩]

/-- C2, counterexample to the claim as stated: the incoming owner reference on
this resource has controller=true and IS the parent Bundle (same uid, name,
kind Bundle), yet evalSpec still fails terminally — the source rejects every
incoming controller reference without checking whether it is the Bundle. -/
theorem C2_counterexample :
    specSelfRef.ownerRefs = [bundleCtrlRef] ∧
    bundleCtrlRef.controller = some true ∧
    bundleCtrlRef.uid = bundleW.uid ∧
    bundleCtrlRef.name = bundleW.name ∧
    bundleCtrlRef.kind = "Bundle" ∧
    evalSpec envW stW resSelfRef =
      .error (.api .otherCause
        "cannot create resource \x22a\x22 with controller owner reference") :=
  ⟨rfl, rfl, rfl, rfl, rfl, rfl⟩

/-- C2, amended: during spec evaluation, ANY incoming owner reference with
controller=true causes a terminal failure (whether or not it references the
parent Bundle); when no incoming reference has controller=true,
blockOwnerDeletion=true is set on all incoming references, a controller
reference to the Bundle is appended, and a non-controller reference to each
dependsOn peer's observed object is appended. -/
theorem C2_evalSpec_ownerRefs_amended (env : Env) (st : SyncState)
    (res : Resource) (spec0 : Unstructured)
    (hp : env.processObject res.spec = .ok spec0) :
    ((∃ r ∈ spec0.ownerRefs, r.controller = some true) →
      evalSpec env st res = .error (.api .otherCause
        ("cannot create resource \x22" ++ res.name ++
          "\x22 with controller owner reference")) ∧
      checkResource env st res = ([], none, false,
        some (.api .otherCause
          ("cannot create resource \x22" ++ res.name ++
            "\x22 with controller owner reference")))) ∧
    ((∀ r ∈ spec0.ownerRefs, r.controller ≠ some true) →
      evalSpec env st res = .ok { spec0 with
        labels := mergeLabels [st.bundle.labels, spec0.labels,
          [(bundleNameLabel, st.bundle.name)]]
        ownerRefs :=
          spec0.ownerRefs.map
            (fun r => { r with blockOwnerDeletion := some true }) ++
          [bundleOwnerRef st.bundle] ++
          res.dependsOn.map (fun d =>
            depOwnerRef ((alookup d st.readyResources).getD
              defaultUnstructured)) } ∧
      (bundleOwnerRef st.bundle).controller = some true ∧
      (∀ d, (depOwnerRef ((alookup d st.readyResources).getD
        defaultUnstructured)).controller = none)) := by
  constructor
  · intro h
    have he : evalSpec env st res = .error (.api .otherCause
        ("cannot create resource \x22" ++ res.name ++
          "\x22 with controller owner reference")) := by
      unfold evalSpec
      rw [hp]
      dsimp only
      rw [processOwnerRefs_error res.name _ h]
    refine ⟨he, ?_⟩
    unfold checkResource
    rw [he]
  · intro h
    refine ⟨?_, rfl, fun d => rfl⟩
    unfold evalSpec
    rw [hp]
    dsimp only
    rw [processOwnerRefs_ok res.name _ h]

theorem C2_amended_witness :
    evalSpec envW stB resB = .ok { resB.spec with
      labels := mergeLabels [stB.bundle.labels, resB.spec.labels,
        [(bundleNameLabel, stB.bundle.name)]]
      ownerRefs :=
        resB.spec.ownerRefs.map
          (fun r => { r with blockOwnerDeletion := some true }) ++
        [bundleOwnerRef stB.bundle] ++
        resB.dependsOn.map (fun d =>
          depOwnerRef ((alookup d stB.readyResources).getD
            defaultUnstructured)) } :=
  ((C2_evalSpec_ownerRefs_amended envW stB resB resB.spec rfl).2
    (by decide)).1

/-! GC deletion-loop lemmas for C3. -/

/-- One deletion-loop step with an error already recorded keeps the flag and
the error. -/
theorem deleteStep_keeps (env : Env) (item : ObjectRef × String) (r0 : Bool)
    (e0 : Err) (acts0 : List ApiAction) :
    ∃ acts', deleteStep env (r0, some e0, acts0) item = (r0, some e0, acts') := by
  unfold deleteStep
  cases env.forGVK item.1.gvk with
  | some e => exact ⟨acts0, by simp⟩
  | none =>
    dsimp only
    cases env.deleteResp item.1.gvk item.1.name item.2 with
    | some e =>
      dsimp only
      by_cases hnc : (e.isNotFound || e.isConflictErr) = true
      · rw [if_pos hnc]
        exact ⟨_, rfl⟩
      · rw [if_neg hnc, if_neg (by simp)]
        exact ⟨_, rfl⟩
    | none => exact ⟨_, rfl⟩

/-- One deletion-loop step with no error recorded yet, written out by cases on
the collaborator responses. -/
theorem deleteStep_none (env : Env) (item : ObjectRef × String) (r0 : Bool)
    (acts0 : List ApiAction) :
    deleteStep env (r0, none, acts0) item =
      match env.forGVK item.1.gvk with
      | some e => (false, some e, acts0)
      | none =>
        match env.deleteResp item.1.gvk item.1.name item.2 with
        | some e =>
          if e.isNotFound || e.isConflictErr then
            (r0, none,
              acts0 ++ [ApiAction.deleteAct item.1.gvk item.1.name item.2 true])
          else
            (r0, some e,
              acts0 ++ [ApiAction.deleteAct item.1.gvk item.1.name item.2 true])
        | none =>
          (r0, none,
            acts0 ++ [ApiAction.deleteAct item.1.gvk item.1.name item.2 true]) := by
  unfold deleteStep
  cases env.forGVK item.1.gvk with
  | some e => simp
  | none =>
    dsimp only
    cases env.deleteResp item.1.gvk item.1.name item.2 with
    | some e =>
      dsimp only
      by_cases hnc : (e.isNotFound || e.isConflictErr) = true
      · rw [if_pos hnc, if_pos hnc]
      · rw [if_neg hnc, if_neg hnc, if_pos rfl]
    | none => rfl

/-- Once a first error is recorded, the deletion loop never changes the
retriable flag or the recorded error. -/
theorem deleteLoop_keeps_err (env : Env) (items : List (ObjectRef × String))
    (r0 : Bool) (e0 : Err) :
    ∀ acts0 : List ApiAction,
    (items.foldl (deleteStep env) (r0, some e0, acts0)).1 = r0 ∧
    (items.foldl (deleteStep env) (r0, some e0, acts0)).2.1 = some e0 := by
  induction items with
  | nil => intro acts0; exact ⟨rfl, rfl⟩
  | cons item rest ih =>
    intro acts0
    rw [List.foldl_cons]
    obtain ⟨acts', hstep⟩ := deleteStep_keeps env item r0 e0 acts0
    rw [hstep]
    exact ih acts'

/-- With no error recorded yet, the loop's outcome is determined by the head
of the error sequence: the recorded error is the first error, and the
retriable flag is cleared exactly when that first error came from client
acquisition. -/
theorem deleteLoop_gcErrors (env : Env) (items : List (ObjectRef × String)) :
    ∀ (r0 : Bool) (acts0 : List ApiAction),
    (items.foldl (deleteStep env) (r0, none, acts0)).1 =
      (match (gcErrors env items).head? with
       | none => r0
       | some p => if p.1 then false else r0) ∧
    (items.foldl (deleteStep env) (r0, none, acts0)).2.1 =
      (gcErrors env items).head?.map (fun p => p.2) := by
  induction items with
  | nil => intro r0 acts0; exact ⟨rfl, rfl⟩
  | cons item rest ih =>
    intro r0 acts0
    rw [List.foldl_cons, deleteStep_none]
    unfold gcErrors
    cases hg : env.forGVK item.1.gvk with
    | some e =>
      dsimp only
      obtain ⟨k1, k2⟩ := deleteLoop_keeps_err env rest false e acts0
      exact ⟨by rw [k1]; rfl, by rw [k2]; rfl⟩
    | none =>
      dsimp only
      cases hd : env.deleteResp item.1.gvk item.1.name item.2 with
      | some e =>
        dsimp only
        by_cases hnc : (e.isNotFound || e.isConflictErr) = true
        · rw [if_pos hnc, if_pos hnc]
          exact ih r0 _
        · rw [if_neg hnc, if_neg hnc]
          obtain ⟨k1, k2⟩ := deleteLoop_keeps_err env rest r0 e
            (acts0 ++ [ApiAction.deleteAct item.1.gvk item.1.name item.2 true])
          exact ⟨by rw [k1]; rfl, by rw [k2]; rfl⟩
      | none => exact ih r0 _

/-- C3, counterexample to the claim as stated: the store reports two stray
children; acquiring the client for the first fails, deleting the second fails
with an ordinary (non-NotFound, non-Conflict) error. The client failure was
therefore NOT the only error encountered, yet the pass returns
retriable=false — the flag depends only on whether the FIRST error was a
client-acquisition failure. -/
theorem C3_counterexample :
    deleteRemovedResources envC3 bundleW =
      ([ApiAction.deleteAct gvkA "obj-d" "uid-d" true], false,
        some (.api .otherCause "no client")) ∧
    envC3.forGVK gvkB = some (.api .otherCause "no client") ∧
    envC3.deleteResp gvkA "obj-d" "uid-d" =
      some (.api .otherCause "delete boom") ∧
    (Err.api .otherCause "delete boom").isNotFound = false ∧
    (Err.api .otherCause "delete boom").isConflictErr = false := by
  refine ⟨rfl, ?_, ?_, rfl, rfl⟩ <;> decide

/-- C3, amended: when deletions fail, the FIRST error encountered is returned
(subsequent errors are only logged), and the returned retriable flag is false
if and only if that first error was a failure to acquire a resource client;
errors encountered after the first do not affect the flag. -/
theorem C3_deleteRemovedResources_first_error_amended (env : Env)
    (bundle : Bundle) (objs : List Unstructured)
    (hobjs : env.objectsForBundle = .ok objs) :
    (deleteRemovedResources env bundle).2.2 =
      (gcErrors env (gcTargets bundle objs)).head?.map (fun p => p.2) ∧
    (deleteRemovedResources env bundle).2.1 =
      (match (gcErrors env (gcTargets bundle objs)).head? with
       | none => true
       | some p => if p.1 then false else true) := by
  unfold deleteRemovedResources
  rw [hobjs]
  dsimp only
  obtain ⟨k1, k2⟩ := deleteLoop_gcErrors env (gcTargets bundle objs) true []
  exact ⟨k2, k1⟩

theorem C3_witness :
    (deleteRemovedResources envC3 bundleW).2.2 =
      (gcErrors envC3
        (gcTargets bundleW [strayObjB, strayObjA])).head?.map (fun p => p.2) :=
  (C3_deleteRemovedResources_first_error_amended envC3 bundleW
    [strayObjB, strayObjA] rfl).1

/-! Ready-set lemmas for C6. -/

/-- checkResource returns a non-nil object only out of its success branch: the
retriable flag is false and the ready checker returned (ready=true, err=nil)
for exactly that object. -/
theorem checkResource_ready (env : Env) (st : SyncState) (res : Resource)
    (acts : List ApiAction) (r : Unstructured) (b : Bool)
    (h : checkResource env st res = (acts, some r, b, none)) :
    b = false ∧ (env.isReady (some r)).1 = true ∧
    (env.isReady (some r)).2.2 = none := by
  unfold checkResource at h
  cases he : evalSpec env st res with
  | error e =>
    rw [he] at h
    simp at h
  | ok spec =>
    rw [he] at h
    dsimp only at h
    rcases hc : createOrUpdate env st spec with ⟨actions, resUpdated, retr, err⟩
    rw [hc] at h
    cases err with
    | some e => simp at h
    | none =>
      dsimp only at h
      split at h
      · simp at h
      · rename_i hcond
        have h1 : resUpdated = some r := congrArg (fun t => t.2.1) h
        have h2 : false = b := congrArg (fun t => t.2.2.1) h
        subst h1
        simp only [Bool.or_eq_true, not_or, Bool.not_eq_true] at hcond
        refine ⟨h2.symm, by simpa using hcond.2, ?_⟩
        cases hx : (env.isReady (some r)).2.2 with
        | none => rfl
        | some e =>
          have := hcond.1
          rw [hx] at this
          simp at this

/-- C6: the ready-set invariant of the traversal. (A) A vertex some of whose
edge targets are missing from the ready map is skipped: the traversal result
is identical to the traversal without that vertex, so no error and no API
call arises from it. (B) Every entry of the final ready map was either
already present or was inserted after checkResource returned it non-nil from
some intermediate ready map, which requires the ready checker to have
returned (ready=true, err=nil) on exactly that created/updated object. -/
theorem C6_ready_set_invariant (env : Env) (bundle : Bundle)
    (rmap : List (String × Resource)) (g : Graph) :
    (∀ (v : String) (rest : List String)
        (ready : List (String × Unstructured)),
      (graphEdges g v).all (fun d => (alookup d ready).isSome) = false →
      visitVertices env bundle rmap g (v :: rest) ready =
        visitVertices env bundle rmap g rest ready) ∧
    (∀ (vs : List String) (ready0 : List (String × Unstructured))
        (v : String) (obj : Unstructured),
      alookup v (visitVertices env bundle rmap g vs ready0).2.1 = some obj →
      alookup v ready0 = some obj ∨
      ((env.isReady (some obj)).1 = true ∧
        (env.isReady (some obj)).2.2 = none ∧
        ∃ ready' acts,
          checkResource env { bundle := bundle, readyResources := ready' }
            ((alookup v rmap).getD defaultResource) =
            (acts, some obj, false, none))) := by
  constructor
  · intro v rest ready h
    simp only [visitVertices]
    rw [if_neg (by simp [h])]
  · intro vs
    induction vs with
    | nil =>
      intro ready0 v obj h
      exact Or.inl h
    | cons w rest ih =>
      intro ready0 v obj h
      simp only [visitVertices] at h
      split at h
      case isFalse => exact ih ready0 v obj h
      case isTrue hdeps =>
        rcases hc : checkResource env
            { bundle := bundle, readyResources := ready0 }
            ((alookup w rmap).getD defaultResource) with
          ⟨actions, readyRes, retr, err⟩
        rw [hc] at h
        cases err with
        | some e =>
          dsimp only at h
          exact Or.inl h
        | none =>
          dsimp only at h
          cases readyRes with
          | none =>
            rcases ih _ v obj h with hl | hr
            · exact Or.inl hl
            · exact Or.inr hr
          | some robj =>
            rcases ih _ v obj h with hl | hr
            · rw [alookup_ainsert] at hl
              by_cases hwv : w = v
              · rw [if_pos hwv] at hl
                obtain hro : robj = obj := Option.some.injEq .. |>.mp hl
                subst hro
                subst hwv
                obtain ⟨hb, hrd, hre⟩ := checkResource_ready env _ _ _ _ _ hc
                subst hb
                exact Or.inr ⟨hrd, hre, ready0, actions, hc⟩
              · rw [if_neg hwv] at hl
                exact Or.inl hl
            · exact Or.inr hr

theorem C6_witness :
    (envW.isReady
      (some ((alookup "a"
        (visitVertices envW bundleW rmapW gW ["a"] []).2.1).getD
          defaultUnstructured))).1 = true := by
  have h := (C6_ready_set_invariant envW bundleW rmapW gW).2 ["a"] []
    "a" ((alookup "a"
      (visitVertices envW bundleW rmapW gW ["a"] []).2.1).getD
        defaultUnstructured) (by decide)
  rcases h with hl | ⟨hrd, _, _⟩
  · exact absurd hl (by decide)
  · exact hrd

/-! Child-map lemmas for C8. -/

theorem alookup_append_none {κ ν : Type} [DecidableEq κ] (k : κ)
    (l1 l2 : List (κ × ν)) (h1 : alookup k l1 = none) :
    alookup k (l1 ++ l2) = alookup k l2 := by
  induction l1 with
  | nil => simp
  | cons x xs ih =>
    obtain ⟨a, b⟩ := x
    by_cases h : a = k
    · simp [alookup, h] at h1
    · simp only [alookup, if_neg h] at h1
      simpa [alookup, h] using ih h1

theorem ainsert_fresh {κ ν : Type} [DecidableEq κ] (k : κ) (v : ν)
    (l : List (κ × ν)) (h : alookup k l = none) :
    ainsert k v l = l ++ [(k, v)] := by
  induction l with
  | nil => rfl
  | cons x xs ih =>
    obtain ⟨a, b⟩ := x
    by_cases ha : a = k
    · simp [alookup, ha] at h
    · simp only [alookup, if_neg ha] at h
      simp [ainsert, ha, ih h]

theorem buildStep_eq (uid : String) (acc : List (ObjectRef × String))
    (obj : Unstructured) :
    buildStep uid acc obj =
      if gcEligible uid obj then ainsert (refOfObj obj) obj.uid acc else acc := by
  unfold buildStep gcEligible refOfObj
  by_cases h1 : obj.deletionTs.isSome
  · simp [h1]
  · by_cases h2 : isControlledBy obj uid <;>
      simp [h1, h2]

theorem buildFold_eq (uid : String) (objs : List Unstructured) :
    ∀ acc : List (ObjectRef × String),
    ((objs.filter (gcEligible uid)).map refOfObj).Nodup →
    (∀ o ∈ objs, gcEligible uid o = true → alookup (refOfObj o) acc = none) →
    objs.foldl (buildStep uid) acc =
      acc ++ (objs.filter (gcEligible uid)).map (fun o => (refOfObj o, o.uid)) := by
  induction objs with
  | nil => intro acc _ _; simp
  | cons o rest ih =>
    intro acc hnd hacc
    rw [List.foldl_cons, buildStep_eq]
    by_cases he : gcEligible uid o
    · rw [if_pos he,
        ainsert_fresh _ _ _ (hacc o (List.mem_cons_self _ _) he)]
      rw [List.filter_cons_of_pos he] at hnd ⊢
      rw [List.map_cons] at hnd
      obtain ⟨hnotmem, hndrest⟩ := List.nodup_cons.mp hnd
      rw [ih (acc ++ [(refOfObj o, o.uid)]) hndrest ?_]
      · rw [List.append_assoc]
        simp
      · intro o' ho' he'
        rw [alookup_append_none _ _ _
          (hacc o' (List.mem_cons_of_mem _ ho') he')]
        have hne : ¬refOfObj o = refOfObj o' := by
          intro hh
          exact hnotmem (hh ▸ List.mem_map_of_mem refOfObj
            (List.mem_filter.mpr ⟨ho', he'⟩))
        simp [alookup, hne]
    · rw [if_neg he]
      rw [List.filter_cons_of_neg (by simpa using he)] at hnd ⊢
      exact ih acc hnd
        (fun o' ho' he' => hacc o' (List.mem_cons_of_mem _ ho') he')

theorem mem_aerase {κ ν : Type} [DecidableEq κ] (k : κ) (p : κ × ν)
    (l : List (κ × ν)) :
    p ∈ aerase k l ↔ p ∈ l ∧ p.1 ≠ k := by
  induction l with
  | nil => simp [aerase]
  | cons x xs ih =>
    obtain ⟨a, b⟩ := x
    by_cases h : a = k
    · subst h
      rw [aerase, if_pos rfl, ih]
      constructor
      · rintro ⟨hm, hne⟩
        exact ⟨List.mem_cons_of_mem _ hm, hne⟩
      · rintro ⟨hm, hne⟩
        rcases List.mem_cons.mp hm with hh | hh
        · exact absurd (congrArg Prod.fst hh) hne
        · exact ⟨hh, hne⟩
    · rw [aerase, if_neg h]
      constructor
      · intro hm
        rcases List.mem_cons.mp hm with hh | hh
        · subst hh
          exact ⟨List.mem_cons_self _ _, by simpa using h⟩
        · obtain ⟨h1, h2⟩ := ih.mp hh
          exact ⟨List.mem_cons_of_mem _ h1, h2⟩
      · rintro ⟨hm, hne⟩
        rcases List.mem_cons.mp hm with hh | hh
        · exact hh ▸ List.mem_cons_self _ _
        · exact List.mem_cons_of_mem _ (ih.mpr ⟨hh, hne⟩)

theorem mem_foldl_aerase (rs : List Resource) :
    ∀ (l : List (ObjectRef × String)) (p : ObjectRef × String),
    (p ∈ rs.foldl
      (fun m res => aerase { gvk := res.spec.gvk, name := res.spec.name } m)
      l) ↔
    (p ∈ l ∧ ∀ res ∈ rs,
      p.1 ≠ ({ gvk := res.spec.gvk, name := res.spec.name } : ObjectRef)) := by
  induction rs with
  | nil => intro l p; simp
  | cons r rest ih =>
    intro l p
    rw [List.foldl_cons, ih, mem_aerase]
    constructor
    · rintro ⟨⟨hm, hne⟩, hall⟩
      refine ⟨hm, fun res hres => ?_⟩
      rcases List.mem_cons.mp hres with hh | hh
      · exact hh ▸ hne
      · exact hall res hh
    · rintro ⟨hm, hall⟩
      exact ⟨⟨hm, hall r (List.mem_cons_self _ _)⟩,
        fun res h => hall res (List.mem_cons_of_mem _ h)⟩

/-- With clients always available, the deletion loop issues exactly one delete
action per target, carrying the target's uid as precondition and foreground
propagation, in order. -/
theorem deleteLoop_actions (env : Env) (hcli : ∀ g, env.forGVK g = none)
    (items : List (ObjectRef × String)) :
    ∀ (r0 : Bool) (fe0 : Option Err) (acts0 : List ApiAction),
    (items.foldl (deleteStep env) (r0, fe0, acts0)).2.2 =
      acts0 ++ items.map
        (fun it => ApiAction.deleteAct it.1.gvk it.1.name it.2 true) := by
  induction items with
  | nil => intro r0 fe0 acts0; simp
  | cons item rest ih =>
    intro r0 fe0 acts0
    rw [List.foldl_cons]
    have hstep : ∃ r1 fe1, deleteStep env (r0, fe0, acts0) item =
        (r1, fe1,
          acts0 ++ [ApiAction.deleteAct item.1.gvk item.1.name item.2 true]) := by
      unfold deleteStep
      rw [hcli item.1.gvk]
      dsimp only
      cases env.deleteResp item.1.gvk item.1.name item.2 with
      | some e =>
        dsimp only
        by_cases hnc : (e.isNotFound || e.isConflictErr) = true
        · rw [if_pos hnc]
          exact ⟨_, _, rfl⟩
        · rw [if_neg hnc]
          by_cases hfe : fe0 = none
          · rw [if_pos hfe]
            exact ⟨_, _, rfl⟩
          · rw [if_neg hfe]
            exact ⟨_, _, rfl⟩
      | none => exact ⟨_, _, rfl⟩
    obtain ⟨r1, fe1, hs⟩ := hstep
    rw [hs, ih r1 fe1 _, List.append_assoc]
    simp

/-- With clients available and every delete response NotFound/Conflict (or
success), the GC error sequence is empty. -/
theorem gcErrors_nil (env : Env) (hcli : ∀ g, env.forGVK g = none)
    (hdel : ∀ g n u e, env.deleteResp g n u = some e →
      (e.isNotFound || e.isConflictErr) = true) :
    ∀ items : List (ObjectRef × String), gcErrors env items = [] := by
  intro items
  induction items with
  | nil => rfl
  | cons item rest ih =>
    unfold gcErrors
    rw [hcli item.1.gvk]
    dsimp only
    cases hd : env.deleteResp item.1.gvk item.1.name item.2 with
    | some e =>
      dsimp only
      rw [if_pos (hdel _ _ _ _ hd)]
      exact ih
    | none => exact ih

theorem gcEligible_iff (uid : String) (o : Unstructured) :
    gcEligible uid o = true ↔
      (o.deletionTs = none ∧ isControlledBy o uid = true) := by
  unfold gcEligible
  cases h : o.deletionTs <;> simp [h]

theorem mem_buildExistingObjs (uid : String) (objs : List Unstructured)
    (hkeys : ((objs.filter (gcEligible uid)).map refOfObj).Nodup)
    (p : ObjectRef × String) :
    p ∈ buildExistingObjs uid objs ↔
      ∃ o, o ∈ objs ∧ gcEligible uid o = true ∧ refOfObj o = p.1 ∧
        o.uid = p.2 := by
  unfold buildExistingObjs
  rw [buildFold_eq uid objs [] hkeys (fun o _ _ => rfl)]
  simp only [List.nil_append, List.mem_map, List.mem_filter]
  constructor
  · rintro ⟨o, ⟨ho, he⟩, heq⟩
    exact ⟨o, ho, he, congrArg Prod.fst heq, congrArg Prod.snd heq⟩
  · rintro ⟨o, ho, he, h1, h2⟩
    refine ⟨o, ⟨ho, he⟩, ?_⟩
    rw [h1, h2]

/-- C8: with the clients available and distinct (gvk, name) keys among the
eligible store objects, the GC pass issues a delete (with the observed uid as
precondition and foreground propagation) exactly for the objects the store
reports that are controlled by the Bundle, carry no deletion timestamp, and
whose (gvk, name) is not declared by any current resource; and when every
delete response is success, NotFound or Conflict, the pass reports no
error. -/
theorem C8_deleteRemovedResources_selection (env : Env) (bundle : Bundle)
    (objs : List Unstructured)
    (hobjs : env.objectsForBundle = .ok objs)
    (hkeys : ((objs.filter (gcEligible bundle.uid)).map refOfObj).Nodup)
    (hcli : ∀ g, env.forGVK g = none) :
    (∀ (ref : ObjectRef) (u : String) (fg : Bool),
      ApiAction.deleteAct ref.gvk ref.name u fg ∈
          (deleteRemovedResources env bundle).1 ↔
        (fg = true ∧ ∃ o, o ∈ objs ∧ o.deletionTs = none ∧
          isControlledBy o bundle.uid = true ∧ refOfObj o = ref ∧
          o.uid = u ∧
          ∀ res ∈ bundle.resources,
            ref ≠ ({ gvk := res.spec.gvk, name := res.spec.name } :
              ObjectRef))) ∧
    ((∀ g n u e, env.deleteResp g n u = some e →
        (e.isNotFound || e.isConflictErr) = true) →
      (deleteRemovedResources env bundle).2.2 = none) := by
  have hres : deleteRemovedResources env bundle =
      (((gcTargets bundle objs).foldl (deleteStep env) (true, none, [])).2.2,
        ((gcTargets bundle objs).foldl (deleteStep env) (true, none, [])).1,
        ((gcTargets bundle objs).foldl (deleteStep env) (true, none, [])).2.1) := by
    unfold deleteRemovedResources
    rw [hobjs]
  constructor
  · intro ref u fg
    rw [hres]
    dsimp only
    rw [deleteLoop_actions env hcli _ true none []]
    simp only [List.nil_append, List.mem_map]
    constructor
    · rintro ⟨it, hit, heq⟩
      obtain ⟨hg, hn, hu, hfg⟩ :
          it.1.gvk = ref.gvk ∧ it.1.name = ref.name ∧ it.2 = u ∧
            true = fg := by
        rcases ApiAction.deleteAct.injEq .. |>.mp heq with ⟨a, b, c, d⟩
        exact ⟨a, b, c, d⟩
      have hit1 : it.1 = ref := by
        rcases it with ⟨⟨ig, inm⟩, iu⟩
        rcases ref with ⟨rg, rn⟩
        simp only at hg hn
        rw [hg, hn]
      unfold gcTargets at hit
      rw [mem_foldl_aerase] at hit
      obtain ⟨hin, hall⟩ := hit
      rw [mem_buildExistingObjs bundle.uid objs hkeys] at hin
      obtain ⟨o, ho, he, h1, h2⟩ := hin
      obtain ⟨hdel, hctl⟩ := (gcEligible_iff bundle.uid o).mp he
      refine ⟨hfg.symm, o, ho, hdel, hctl, by rw [h1, hit1], by rw [h2, hu],
        fun res hresm => ?_⟩
      have := hall res hresm
      rw [hit1] at this
      exact this
    · rintro ⟨hfg, o, ho, hdel, hctl, href, huid, hall⟩
      subst hfg
      refine ⟨(ref, u), ?_, ?_⟩
      · unfold gcTargets
        rw [mem_foldl_aerase]
        refine ⟨?_, fun res hresm => hall res hresm⟩
        rw [mem_buildExistingObjs bundle.uid objs hkeys]
        exact ⟨o, ho, (gcEligible_iff bundle.uid o).mpr ⟨hdel, hctl⟩,
          href, huid⟩
      · rfl
  · intro hdel
    rw [hres]
    dsimp only
    obtain ⟨-, k2⟩ := deleteLoop_gcErrors env (gcTargets bundle objs) true []
    rw [k2, gcErrors_nil env hcli hdel]
    rfl

theorem C8_witness :
    (deleteRemovedResources
        { envW with objectsForBundle := .ok [strayObjB] } bundleW).2.2 =
      none :=
  (C8_deleteRemovedResources_selection
    { envW with objectsForBundle := .ok [strayObjB] } bundleW [strayObjB]
    rfl (by decide) (fun g => rfl)).2 (fun g n u e h => nomatch h)

/-! Resource-map and graph lemmas for C7. -/

theorem buildResourceMapGo_error (l : List Resource) :
    ∀ acc : List (String × Resource),
    (¬(l.map (fun r => r.name)).Nodup ∨
      ∃ r ∈ l, (alookup r.name acc).isSome = true) →
    ∃ e, buildResourceMapGo acc l = .error e := by
  induction l with
  | nil =>
    intro acc h
    rcases h with h | ⟨r, hr, _⟩
    · simp at h
    · simp at hr
  | cons res rest ih =>
    intro acc h
    unfold buildResourceMapGo
    by_cases hl : (alookup res.name acc).isSome = true
    · rw [if_pos hl]
      exact ⟨_, rfl⟩
    · rw [if_neg hl]
      apply ih
      rcases h with h | ⟨r, hr, hrs⟩
      · by_cases hmem : res.name ∈ rest.map (fun r => r.name)
        · right
          obtain ⟨r', hr', hname⟩ := List.mem_map.mp hmem
          refine ⟨r', hr', ?_⟩
          rw [alookup_ainsert, if_pos hname.symm]
          rfl
        · left
          intro hnd
          rw [List.map_cons] at h
          exact h (List.nodup_cons.mpr ⟨hmem, hnd⟩)
      · rcases List.mem_cons.mp hr with hh | hh
        · rw [hh] at hrs
          exact absurd hrs hl
        · right
          refine ⟨r, hh, ?_⟩
          rw [alookup_ainsert]
          by_cases hx : res.name = r.name
          · rw [if_pos hx]
            rfl
          · rw [if_neg hx]
            exact hrs

theorem buildResourceMapGo_ok (l : List Resource) :
    ∀ (acc : List (String × Resource)) (m : List (String × Resource)),
    buildResourceMapGo acc l = .ok m →
    (l.map (fun r => r.name)).Nodup ∧
    ∀ r ∈ l, alookup r.name acc = none := by
  induction l with
  | nil =>
    intro acc m _
    exact ⟨List.nodup_nil, fun r hr => absurd hr (List.not_mem_nil r)⟩
  | cons res rest ih =>
    intro acc m h
    unfold buildResourceMapGo at h
    by_cases hl : (alookup res.name acc).isSome = true
    · rw [if_pos hl] at h
      exact absurd h (by simp)
    · rw [if_neg hl] at h
      obtain ⟨hnd, hall⟩ := ih _ _ h
      have hnone : alookup res.name acc = none := by
        cases hx : alookup res.name acc with
        | none => rfl
        | some v =>
          rw [hx] at hl
          simp at hl
      constructor
      · rw [List.map_cons, List.nodup_cons]
        refine ⟨?_, hnd⟩
        intro hmem
        obtain ⟨r', hr', hname⟩ := List.mem_map.mp hmem
        have hthis := hall r' hr'
        rw [alookup_ainsert, if_pos hname.symm] at hthis
        exact absurd hthis (by simp)
      · intro r hr
        rcases List.mem_cons.mp hr with hh | hh
        · rw [hh]
          exact hnone
        · have hthis := hall r hh
          rw [alookup_ainsert] at hthis
          by_cases hx : res.name = r.name
          · rw [if_pos hx] at hthis
            exact absurd hthis (by simp)
          · rw [if_neg hx] at hthis
            exact hthis

theorem addDeps_error (vertices : List String) (rname : String)
    (ds : List String) (h : ∃ d ∈ ds, vertices.contains d = false) :
    ∃ e, addDeps vertices rname ds = .error e := by
  induction ds with
  | nil => simp at h
  | cons d rest ih =>
    unfold addDeps
    by_cases hc : (vertices.contains rname && vertices.contains d) = true
    · rw [if_pos hc]
      obtain ⟨d', hd', hdc⟩ := h
      rcases List.mem_cons.mp hd' with hh | hh
      · rw [Bool.and_eq_true] at hc
        rw [hh, hc.2] at hdc
        exact absurd hdc (by simp)
      · obtain ⟨e, he⟩ := ih ⟨d', hh, hdc⟩
        rw [he]
        exact ⟨e, rfl⟩
    · rw [if_neg hc]
      exact ⟨_, rfl⟩

theorem addDeps_ok (vertices : List String) (rname : String)
    (ds : List String) :
    ∀ es, addDeps vertices rname ds = .ok es →
    es = ds.map (fun d => (rname, d)) ∧
    ∀ d ∈ ds, rname ∈ vertices ∧ d ∈ vertices := by
  induction ds with
  | nil =>
    intro es h
    obtain rfl : ([] : List (String × String)) = es :=
      Except.ok.injEq .. |>.mp h
    exact ⟨rfl, fun d hd => absurd hd (List.not_mem_nil d)⟩
  | cons d rest ih =>
    intro es h
    unfold addDeps at h
    by_cases hc : (vertices.contains rname && vertices.contains d) = true
    · rw [if_pos hc] at h
      cases hr : addDeps vertices rname rest with
      | error e =>
        rw [hr] at h
        exact absurd h (by simp)
      | ok es2 =>
        rw [hr] at h
        obtain ⟨hes2, hall⟩ := ih es2 hr
        obtain rfl : (rname, d) :: es2 = es := Except.ok.injEq .. |>.mp h
        rw [Bool.and_eq_true] at hc
        refine ⟨by rw [hes2, List.map_cons], fun d' hd' => ?_⟩
        rcases List.mem_cons.mp hd' with hh | hh
        · exact ⟨List.elem_iff.mp hc.1, hh ▸ List.elem_iff.mp hc.2⟩
        · exact hall d' hh
    · rw [if_neg hc] at h
      exact absurd h (by simp)

theorem addAllEdges_error (vertices : List String) (l : List Resource)
    (h : ∃ res ∈ l, ∃ d ∈ res.dependsOn, vertices.contains d = false) :
    ∃ e, addAllEdges vertices l = .error e := by
  induction l with
  | nil => simp at h
  | cons res rest ih =>
    unfold addAllEdges
    cases hd : addDeps vertices res.name res.dependsOn with
    | error e => exact ⟨e, rfl⟩
    | ok es =>
      obtain ⟨res', hres', d, hdmem, hdc⟩ := h
      rcases List.mem_cons.mp hres' with hh | hh
      · obtain ⟨e, he⟩ := addDeps_error vertices res.name res.dependsOn
          ⟨d, hh ▸ hdmem, hdc⟩
        rw [he] at hd
        exact absurd hd (by simp)
      · obtain ⟨e, he⟩ := ih ⟨res', hh, d, hdmem, hdc⟩
        rw [he]
        exact ⟨e, rfl⟩

theorem addAllEdges_ok (vertices : List String) (l : List Resource) :
    ∀ es, addAllEdges vertices l = .ok es →
    es = bundleEdges l ∧ ∀ p ∈ es, p.1 ∈ vertices ∧ p.2 ∈ vertices := by
  induction l with
  | nil =>
    intro es h
    obtain rfl : ([] : List (String × String)) = es :=
      Except.ok.injEq .. |>.mp h
    exact ⟨rfl, fun p hp => absurd hp (List.not_mem_nil p)⟩
  | cons res rest ih =>
    intro es h
    unfold addAllEdges at h
    cases hd : addDeps vertices res.name res.dependsOn with
    | error e =>
      rw [hd] at h
      exact absurd h (by simp)
    | ok es1 =>
      rw [hd] at h
      cases hr : addAllEdges vertices rest with
      | error e =>
        rw [hr] at h
        exact absurd h (by simp)
      | ok es2 =>
        rw [hr] at h
        obtain rfl : es1 ++ es2 = es := Except.ok.injEq .. |>.mp h
        obtain ⟨hes1, hall1⟩ := addDeps_ok vertices res.name res.dependsOn es1 hd
        obtain ⟨hes2, hall2⟩ := ih es2 hr
        constructor
        · rw [hes1, hes2]
          rfl
        · intro p hp
          rcases List.mem_append.mp hp with hh | hh
          · rw [hes1] at hh
            obtain ⟨d, hdm, hpd⟩ := List.mem_map.mp hh
            obtain ⟨h1, h2⟩ := hall1 d hdm
            rw [← hpd]
            exact ⟨h1, h2⟩
          · exact hall2 p hh

theorem topoStep_some (edges : List (String × String))
    (emitted remaining : List String) (v : String)
    (h : topoStep edges emitted remaining = some v) :
    v ∈ remaining ∧ ∀ e ∈ edges, e.1 = v → e.2 ∈ emitted := by
  refine ⟨List.mem_of_find?_eq_some h, ?_⟩
  have hp := List.find?_some h
  simp only [List.all_eq_true, decide_eq_true_eq] at hp
  intro e he hev
  have := hp e (List.mem_filter.mpr ⟨he, by simp [hev]⟩)
  exact List.elem_iff.mp this

theorem topoSortGo_sound (edges : List (String × String)) :
    ∀ (fuel : Nat) (emitted remaining out : List String),
    topoSortGo edges fuel emitted remaining = .ok out →
    RespectsRev edges emitted →
    emitted.Nodup → remaining.Nodup →
    (∀ x ∈ emitted, x ∉ remaining) →
    ∃ acc, out = acc.reverse ∧ RespectsRev edges acc ∧ acc.Nodup ∧
      (∀ x ∈ emitted, x ∈ acc) ∧ (∀ x ∈ remaining, x ∈ acc) := by
  intro fuel
  induction fuel with
  | zero =>
    intro emitted remaining out h hresp hnd1 _ _
    cases remaining with
    | nil =>
      obtain rfl : emitted.reverse = out := Except.ok.injEq .. |>.mp h
      exact ⟨emitted, rfl, hresp, hnd1, fun x hx => hx, fun x hx => absurd hx
        (List.not_mem_nil x)⟩
    | cons r rs => exact absurd h (by simp [topoSortGo])
  | succ fuel ih =>
    intro emitted remaining out h hresp hnd1 hnd2 hdisj
    cases remaining with
    | nil =>
      obtain rfl : emitted.reverse = out := Except.ok.injEq .. |>.mp h
      exact ⟨emitted, rfl, hresp, hnd1, fun x hx => hx, fun x hx => absurd hx
        (List.not_mem_nil x)⟩
    | cons r rs =>
      unfold topoSortGo at h
      cases hstep : topoStep edges emitted (r :: rs) with
      | none =>
        rw [hstep] at h
        exact absurd h (by simp)
      | some v =>
        rw [hstep] at h
        dsimp only at h
        obtain ⟨hvmem, hvtargets⟩ := topoStep_some edges emitted (r :: rs) v hstep
        have hvnotemitted : v ∉ emitted := fun hv => hdisj v hv hvmem
        obtain ⟨acc, hout, hresp', hnd', hmem1, hmem2⟩ :=
          ih (v :: emitted) ((r :: rs).erase v) out h
            ⟨hvtargets, hresp⟩
            (List.nodup_cons.mpr ⟨hvnotemitted, hnd1⟩)
            (hnd2.erase v)
            (by
              intro x hx
              rcases List.mem_cons.mp hx with hh | hh
              · rw [hh]
                exact hnd2.not_mem_erase
              · intro hmem
                exact hdisj x hh (List.mem_of_mem_erase hmem))
        refine ⟨acc, hout, hresp', hnd', ?_, ?_⟩
        · intro x hx
          exact hmem1 x (List.mem_cons_of_mem _ hx)
        · intro x hx
          by_cases hxv : x = v
          · exact hmem1 x (hxv ▸ List.mem_cons_self _ _)
          · exact hmem2 x ((hnd2.mem_erase_iff).mpr ⟨hxv, hx⟩)

theorem rankIn_lt_length (l : List String) (x : String) (h : x ∈ l) :
    rankIn l x < l.length := by
  induction l with
  | nil => simp at h
  | cons v rest ih =>
    unfold rankIn
    by_cases hv : v = x
    · rw [if_pos hv]
      exact Nat.lt_succ_self _
    · rw [if_neg hv]
      rcases List.mem_cons.mp h with hh | hh
      · exact absurd hh.symm hv
      · exact Nat.lt_succ_of_lt (ih hh)

theorem respects_rank (edges : List (String × String)) (acc : List String) :
    RespectsRev edges acc → acc.Nodup →
    ∀ a b, (a, b) ∈ edges → a ∈ acc →
    b ∈ acc ∧ rankIn acc b < rankIn acc a := by
  induction acc with
  | nil =>
    intro _ _ a b _ ha
    simp at ha
  | cons v rest ih =>
    intro hresp hnd a b he ha
    obtain ⟨hhead, hrest⟩ := hresp
    obtain ⟨hvnotmem, hndrest⟩ := List.nodup_cons.mp hnd
    by_cases hv : v = a
    · have hb : b ∈ rest := hhead (a, b) he hv.symm
      have hbv : ¬v = b := fun hh => hvnotmem (hh ▸ hb)
      refine ⟨List.mem_cons_of_mem _ hb, ?_⟩
      unfold rankIn
      rw [if_neg hbv, if_pos hv]
      exact rankIn_lt_length rest b hb
    · rcases List.mem_cons.mp ha with hh | hh
      · exact absurd hh.symm hv
      · obtain ⟨hb, hlt⟩ := ih hrest hndrest a b he hh
        have hbv : ¬v = b := fun hhh => hvnotmem (hhh ▸ hb)
        refine ⟨List.mem_cons_of_mem _ hb, ?_⟩
        unfold rankIn
        rw [if_neg hbv, if_neg hv]
        exact hlt

theorem edgePath_rank (edges : List (String × String)) (acc : List String)
    (hresp : RespectsRev edges acc) (hnd : acc.Nodup) (a b : String)
    (hp : EdgePath edges a b) :
    a ∈ acc → b ∈ acc ∧ rankIn acc b < rankIn acc a := by
  induction hp with
  | single a b he =>
    intro ha
    exact respects_rank edges acc hresp hnd a b he ha
  | cons a b c he hpp ih =>
    intro ha
    obtain ⟨hb, hlt1⟩ := respects_rank edges acc hresp hnd a b he ha
    obtain ⟨hc, hlt2⟩ := ih hb
    exact ⟨hc, Nat.lt_trans hlt2 hlt1⟩

theorem topologicalSort_ok_no_cycle (g : Graph) (out : List String)
    (hnd : g.vertices.Nodup)
    (hsrc : ∀ p ∈ g.edges, p.1 ∈ g.vertices)
    (h : topologicalSort g = .ok out) :
    ∀ v, ¬EdgePath g.edges v v := by
  intro v hcyc
  unfold topologicalSort at h
  obtain ⟨acc, _, hresp, hndacc, _, hmem2⟩ :=
    topoSortGo_sound g.edges g.vertices.length [] g.vertices out h
      trivial List.nodup_nil hnd (by simp)
  have hv : v ∈ acc := by
    cases hcyc with
    | single a b he => exact hmem2 v (hsrc _ he)
    | cons a b c he hp => exact hmem2 v (hsrc _ he)
  obtain ⟨-, hlt⟩ := edgePath_rank g.edges acc hresp hndacc v v hcyc hv
  exact Nat.lt_irrefl _ hlt

/-- C7: process fails terminally — retriable=false with an error, an empty
action trace (no create/update/delete call) and an empty ready map — before
visiting any vertex, whenever the bundle declares two resources with the same
name, or a dependsOn entry names a resource not declared in the bundle, or
the dependsOn relation has a cycle. -/
theorem C7_process_terminal_before_visiting (env : Env) (bundle : Bundle)
    (h : ¬(bundle.resources.map (fun r => r.name)).Nodup ∨
      (∃ res ∈ bundle.resources, ∃ d ∈ res.dependsOn,
        d ∉ bundle.resources.map (fun r => r.name)) ∨
      (∃ v, EdgePath (bundleEdges bundle.resources) v v)) :
    ∃ e, process env bundle = ([], [], false, some e) := by
  cases hb : buildResourceMap bundle.resources with
  | error e =>
    refine ⟨e, ?_⟩
    unfold process
    rw [hb]
  | ok m =>
    obtain ⟨hnd, -⟩ := buildResourceMapGo_ok bundle.resources [] m hb
    cases hs : sortBundle bundle with
    | error e2 =>
      refine ⟨e2, ?_⟩
      unfold process
      rw [hb]
      dsimp only
      rw [hs]
    | ok gs =>
      exfalso
      unfold sortBundle at hs
      dsimp only at hs
      cases ha : addAllEdges (bundle.resources.map (fun r => r.name))
          bundle.resources with
      | error e3 =>
        rw [ha] at hs
        exact absurd hs (by simp)
      | ok es =>
        rw [ha] at hs
        dsimp only at hs
        obtain ⟨hes, hendpoints⟩ :=
          addAllEdges_ok (bundle.resources.map (fun r => r.name))
            bundle.resources es ha
        cases ht : topologicalSort
            { vertices := bundle.resources.map (fun r => r.name),
              edges := es } with
        | error e4 =>
          rw [ht] at hs
          exact absurd hs (by simp)
        | ok sorted =>
          rcases h with h | h | h
          · exact h hnd
          · obtain ⟨res, hres, d, hd, hdnot⟩ := h
            have hdc : (bundle.resources.map (fun r => r.name)).contains d
                = false := by
              cases hx : (bundle.resources.map (fun r => r.name)).contains d
              · rfl
              · exact absurd (List.elem_iff.mp hx) hdnot
            obtain ⟨e5, he5⟩ := addAllEdges_error
              (bundle.resources.map (fun r => r.name)) bundle.resources
              ⟨res, hres, d, hd, hdc⟩
            rw [ha] at he5
            exact absurd he5 (by simp)
          · obtain ⟨v, hcyc⟩ := h
            exact topologicalSort_ok_no_cycle _ sorted hnd
              (fun p hp => (hendpoints p hp).1) ht v (hes ▸ hcyc)

theorem C7_witness :
    (process envW bundleCycle).1 = [] ∧
    (process envW bundleCycle).2.1 = [] ∧
    (process envW bundleCycle).2.2.1 = false ∧
    (process envW bundleCycle).2.2.2.isSome = true := by
  obtain ⟨e, he⟩ := C7_process_terminal_before_visiting envW bundleCycle
    (Or.inr (Or.inr ⟨"a",
      EdgePath.cons "a" "b" "a" (by decide)
        (EdgePath.single "b" "a" (by decide))⟩))
  rw [he]
  exact ⟨rfl, rfl, rfl, rfl⟩

end Smith
